import Mathlib

/-!
Verification development for the plugin-engine / streaming tool-use core of
the repository (packages/aiCore).  Pure functions of the TypeScript source are
embedded as Lean definitions; stateful code is embedded with explicit state
passing; thrown exceptions are embedded with `Except` / `Option`.

Conventions used throughout:
* a JavaScript value that may be `undefined` is an `Option`;
* `x || 0` on an optional number is `Option.getD x 0`;
* the single-threaded event loop makes `await` sequencing deterministic, so
  `Promise.all` over hook invocations is embedded as left-to-right sequencing
  that stops at the first rejection;
* machine numbers in this code are token counts (small non-negative integers
  that real runs never overflow), embedded as `Nat`.
-/

namespace CherryCore

/-! ## Usage records (StreamEventManager.accumulateUsage)

`LanguageModelUsage`, `ImageModelUsage` and `EmbeddingModelUsage` are
structurally discriminated in the source by field presence.  A single record
type with optional fields embeds all three shapes; a `none` field is an
absent/undefined field.  The fields `reasoningTokens` / `cachedInputTokens`
appear in the accumulator object the prompt-tool-use plugin initialises and
are never touched by `accumulateUsage`. -/

structure InDetails where
  noCacheTokens : Option Nat := none
  cacheReadTokens : Option Nat := none
  cacheWriteTokens : Option Nat := none
deriving DecidableEq, Repr

structure OutDetails where
  textTokens : Option Nat := none
  reasoningTokens : Option Nat := none
deriving DecidableEq, Repr

structure Usage where
  inputTokens : Option Nat := none
  outputTokens : Option Nat := none
  totalTokens : Option Nat := none
  inputTokenDetails : Option InDetails := none
  outputTokenDetails : Option OutDetails := none
  tokens : Option Nat := none
  reasoningTokens : Option Nat := none
  cachedInputTokens : Option Nat := none
deriving DecidableEq, Repr

/-- Type guard `isLanguageModelUsage`:
`'totalTokens' in usage || 'inputTokens' in usage || 'outputTokens' in usage`. -/
def isLanguageModelUsage (u : Usage) : Bool :=
  u.totalTokens.isSome || u.inputTokens.isSome || u.outputTokens.isSome

/-- Type guard `isImageModelUsage`: `inputTokens` and `outputTokens` present,
no `inputTokenDetails` / `outputTokenDetails`. -/
def isImageModelUsage (u : Usage) : Bool :=
  u.inputTokens.isSome && u.outputTokens.isSome &&
    u.inputTokenDetails.isNone && u.outputTokenDetails.isNone

/-- Type guard `isEmbeddingModelUsage`: only `tokens`, no
`inputTokens` / `outputTokens`. -/
def isEmbeddingModelUsage (u : Usage) : Bool :=
  u.tokens.isSome && u.inputTokens.isNone && u.outputTokens.isNone

/-- The `inputTokenDetails` accumulation block: if the source carries details,
the target's details object is created when missing (all fields undefined) and
each field becomes `(target.f || 0) + (source.f || 0)`. -/
def addInDetails (t : Option InDetails) (s : Option InDetails) : Option InDetails :=
  match s with
  | none => t
  | some sd =>
    let td := t.getD {}
    some { noCacheTokens := some (td.noCacheTokens.getD 0 + sd.noCacheTokens.getD 0)
           cacheReadTokens := some (td.cacheReadTokens.getD 0 + sd.cacheReadTokens.getD 0)
           cacheWriteTokens := some (td.cacheWriteTokens.getD 0 + sd.cacheWriteTokens.getD 0) }

/-- The `outputTokenDetails` accumulation block, same pattern. -/
def addOutDetails (t : Option OutDetails) (s : Option OutDetails) : Option OutDetails :=
  match s with
  | none => t
  | some sd =>
    let td := t.getD {}
    some { textTokens := some (td.textTokens.getD 0 + sd.textTokens.getD 0)
           reasoningTokens := some (td.reasoningTokens.getD 0 + sd.reasoningTokens.getD 0) }

/-- The language-model branch of `accumulateUsage` (which is also taken by an
image-shaped pair, because every image-shaped record satisfies the
language-model guard; the update on the three token fields is the same). -/
def langAdd (t s : Usage) : Usage :=
  { t with
    totalTokens := some (t.totalTokens.getD 0 + s.totalTokens.getD 0)
    inputTokens := some (t.inputTokens.getD 0 + s.inputTokens.getD 0)
    outputTokens := some (t.outputTokens.getD 0 + s.outputTokens.getD 0)
    inputTokenDetails := addInDetails t.inputTokenDetails s.inputTokenDetails
    outputTokenDetails := addOutDetails t.outputTokenDetails s.outputTokenDetails }

/-- The image-model branch of `accumulateUsage`. -/
def imageAdd (t s : Usage) : Usage :=
  { t with
    totalTokens := some (t.totalTokens.getD 0 + s.totalTokens.getD 0)
    inputTokens := some (t.inputTokens.getD 0 + s.inputTokens.getD 0)
    outputTokens := some (t.outputTokens.getD 0 + s.outputTokens.getD 0) }

/-- The embedding-model branch of `accumulateUsage`. -/
def embAdd (t s : Usage) : Usage :=
  { t with tokens := some (t.tokens.getD 0 + s.tokens.getD 0) }

/-- Result of one `accumulateUsage` call: the mutated target plus whether the
"Unable to accumulate usage" diagnostic was emitted.  The embedded function is
total: the source method only reads fields and adds numbers, it cannot throw. -/
structure AccResult where
  target : Usage
  warned : Bool
deriving DecidableEq, Repr

/-- `StreamEventManager.accumulateUsage(target, source)`: three guarded
branches in source order, otherwise a no-op with a console diagnostic. -/
def accumulateUsage (target source : Usage) : AccResult :=
  if isLanguageModelUsage target && isLanguageModelUsage source then
    { target := langAdd target source, warned := false }
  else if isImageModelUsage target && isImageModelUsage source then
    { target := imageAdd target source, warned := false }
  else if isEmbeddingModelUsage target && isEmbeddingModelUsage source then
    { target := embAdd target source, warned := false }
  else
    { target := target, warned := true }

/-- Binary accumulation viewed as an operation on the running total. -/
def accU (t s : Usage) : Usage := (accumulateUsage t s).target

/-- A language-model zero target `{inputTokens: 0, outputTokens: 0, totalTokens: 0}`. -/
def zeroLangUsage : Usage :=
  { inputTokens := some 0, outputTokens := some 0, totalTokens := some 0 }

/-- An embedding-model zero target `{tokens: 0}`. -/
def zeroEmbUsage : Usage := { tokens := some 0 }

/-- The accumulator the prompt-tool-use plugin initialises on the context. -/
def pluginZeroUsage : Usage :=
  { inputTokens := some 0, outputTokens := some 0, totalTokens := some 0
    reasoningTokens := some 0, cachedInputTokens := some 0 }

/-! ### Algebraic lemmas about detail accumulation -/

theorem addInDetails_zero_comm (x y : Option InDetails) :
    addInDetails (addInDetails none x) y = addInDetails (addInDetails none y) x := by
  rcases x with _ | xd <;> rcases y with _ | yd <;>
    simp [addInDetails, Option.getD] <;> omega

theorem addOutDetails_zero_comm (x y : Option OutDetails) :
    addOutDetails (addOutDetails none x) y = addOutDetails (addOutDetails none y) x := by
  rcases x with _ | xd <;> rcases y with _ | yd <;>
    simp [addOutDetails, Option.getD] <;> omega

theorem addInDetails_assoc (x y z : Option InDetails) :
    addInDetails (addInDetails x y) z = addInDetails x (addInDetails y z) := by
  rcases x with _ | xd <;> rcases y with _ | yd <;> rcases z with _ | zd <;>
    simp [addInDetails, Option.getD] <;> omega

theorem addOutDetails_assoc (x y z : Option OutDetails) :
    addOutDetails (addOutDetails x y) z = addOutDetails x (addOutDetails y z) := by
  rcases x with _ | xd <;> rcases y with _ | yd <;> rcases z with _ | zd <;>
    simp [addOutDetails, Option.getD] <;> omega

theorem isLang_langAdd (t s : Usage) : isLanguageModelUsage (langAdd t s) = true := by
  simp [isLanguageModelUsage, langAdd]

theorem accU_lang (t s : Usage) (ht : isLanguageModelUsage t = true)
    (hs : isLanguageModelUsage s = true) : accU t s = langAdd t s := by
  simp [accU, accumulateUsage, ht, hs]

theorem emb_inputTokens_none (t : Usage) (ht : isEmbeddingModelUsage t = true) :
    t.inputTokens = none := by
  rcases h : t.inputTokens with _ | v
  · rfl
  · simp [isEmbeddingModelUsage, h] at ht

theorem emb_outputTokens_none (t : Usage) (ht : isEmbeddingModelUsage t = true) :
    t.outputTokens = none := by
  rcases h : t.outputTokens with _ | v
  · rfl
  · simp [isEmbeddingModelUsage, h] at ht

theorem emb_tokens_isSome (t : Usage) (ht : isEmbeddingModelUsage t = true) :
    t.tokens.isSome = true := by
  rcases h : t.tokens with _ | v
  · simp [isEmbeddingModelUsage, h] at ht
  · rfl

theorem accU_emb (t s : Usage) (ht : isEmbeddingModelUsage t = true)
    (hs : isEmbeddingModelUsage s = true) (hL : isLanguageModelUsage t = false) :
    accU t s = embAdd t s := by
  simp [accU, accumulateUsage, hL, isImageModelUsage,
    emb_inputTokens_none t ht, ht, hs]

theorem isEmb_embAdd (t s : Usage) (ht : isEmbeddingModelUsage t = true) :
    isEmbeddingModelUsage (embAdd t s) = true := by
  simp [isEmbeddingModelUsage, embAdd, emb_inputTokens_none t ht,
    emb_outputTokens_none t ht]

theorem isLang_embAdd (t s : Usage) :
    isLanguageModelUsage (embAdd t s) = isLanguageModelUsage t := by
  simp [isLanguageModelUsage, embAdd]

/-- C5: `accumulateUsage` is commutative (accumulating two same-shaped records
into a zero target gives the same total in either order) and associative for
same-shaped records — both for the language-model shape (which, by guard
order, also covers image-model-shaped records, since every record with
`inputTokens`/`outputTokens` present satisfies the language-model guard) and
for the embedding-model shape; the concrete example
`{10,20,30} ⊕ {5,10,15} = {15,30,45}` holds in either order; and accumulating
a language-model target with an embedding-model source is a complete no-op
with the diagnostic flag set (the embedded function is total — the source
method only reads fields and adds numbers, it never throws). -/
theorem accumulateUsage_algebra :
    (accU (accU zeroLangUsage
        { inputTokens := some 10, outputTokens := some 20, totalTokens := some 30 })
        { inputTokens := some 5, outputTokens := some 10, totalTokens := some 15 } =
      { inputTokens := some 15, outputTokens := some 30, totalTokens := some 45 } ∧
     accU (accU zeroLangUsage
        { inputTokens := some 5, outputTokens := some 10, totalTokens := some 15 })
        { inputTokens := some 10, outputTokens := some 20, totalTokens := some 30 } =
      { inputTokens := some 15, outputTokens := some 30, totalTokens := some 45 }) ∧
    (∀ a b : Usage, isLanguageModelUsage a = true → isLanguageModelUsage b = true →
      accU (accU zeroLangUsage a) b = accU (accU zeroLangUsage b) a) ∧
    (∀ a b c : Usage, isLanguageModelUsage a = true → isLanguageModelUsage b = true →
      isLanguageModelUsage c = true → accU (accU a b) c = accU a (accU b c)) ∧
    (∀ a b : Usage, isEmbeddingModelUsage a = true → isEmbeddingModelUsage b = true →
      accU (accU zeroEmbUsage a) b = accU (accU zeroEmbUsage b) a) ∧
    (∀ a b c : Usage,
      isEmbeddingModelUsage a = true → isLanguageModelUsage a = false →
      isEmbeddingModelUsage b = true → isLanguageModelUsage b = false →
      isEmbeddingModelUsage c = true →
      accU (accU a b) c = accU a (accU b c)) ∧
    (∀ t s : Usage, isLanguageModelUsage t = true → t.tokens = none →
      isEmbeddingModelUsage s = true → isLanguageModelUsage s = false →
      accumulateUsage t s = { target := t, warned := true }) ∧
    (accumulateUsage { inputTokens := some 10 } { tokens := some 5 } =
      { target := { inputTokens := some 10 }, warned := true }) := by
  refine ⟨⟨by decide, by decide⟩, ?_, ?_, ?_, ?_, ?_, by decide⟩
  · intro a b ha hb
    rw [accU_lang _ _ (by decide) ha, accU_lang _ _ (isLang_langAdd _ _) hb,
      accU_lang _ _ (by decide) hb, accU_lang _ _ (isLang_langAdd _ _) ha]
    simp [langAdd, zeroLangUsage, addInDetails_zero_comm, addOutDetails_zero_comm]
    omega
  · intro a b c ha hb hc
    rw [accU_lang _ _ ha hb, accU_lang _ _ (isLang_langAdd _ _) hc,
      accU_lang _ _ hb hc, accU_lang _ _ ha (isLang_langAdd _ _)]
    simp [langAdd, addInDetails_assoc, addOutDetails_assoc]
    omega
  · intro a b ha hb
    rw [accU_emb _ _ (by decide) ha (by decide),
      accU_emb _ _ (isEmb_embAdd _ _ (by decide)) hb (by rw [isLang_embAdd]; decide),
      accU_emb _ _ (by decide) hb (by decide),
      accU_emb _ _ (isEmb_embAdd _ _ (by decide)) ha (by rw [isLang_embAdd]; decide)]
    simp [embAdd, zeroEmbUsage]
    omega
  · intro a b c hEa hLa hEb _hLb hEc
    rw [accU_emb _ _ hEa hEb hLa,
      accU_emb _ _ (isEmb_embAdd _ _ hEa) hEc (by rw [isLang_embAdd]; exact hLa),
      accU_emb _ _ hEb hEc _hLb, accU_emb _ _ hEa (isEmb_embAdd _ _ hEb) hLa]
    simp [embAdd]
    omega
  · intro t s hLt htk hEs hLs
    simp [accumulateUsage, hLs, isImageModelUsage, emb_inputTokens_none s hEs,
      isEmbeddingModelUsage, htk]

/-- Witness for `accumulateUsage_algebra`: the general parts applied at
concrete language-model and embedding-model records. -/
theorem accumulateUsage_algebra_witness :
    accU (accU zeroLangUsage { inputTokens := some 1, totalTokens := some 2 })
        { totalTokens := some 7 } =
      accU (accU zeroLangUsage { totalTokens := some 7 })
        { inputTokens := some 1, totalTokens := some 2 } ∧
    accU (accU { tokens := some 3 } { tokens := some 4 }) { tokens := some 5 } =
      accU { tokens := some 3 } (accU { tokens := some 4 } { tokens := some 5 }) ∧
    accumulateUsage { totalTokens := some 9 } { tokens := some 1 } =
      { target := { totalTokens := some 9 }, warned := true } := by
  refine ⟨accumulateUsage_algebra.2.1 _ _ (by decide) (by decide),
    accumulateUsage_algebra.2.2.2.2.1 _ _ _ (by decide) (by decide) (by decide)
      (by decide) (by decide),
    accumulateUsage_algebra.2.2.2.2.2.1 _ _ (by decide) (by decide) (by decide)
      (by decide)⟩

/-! ## JSON-like parameter objects and JavaScript spread

`transformParams` merges with `{ ...result, ...partial }`; the recursive call
re-enters with `{ ...params, ...newParams }`.  Objects are association lists
without duplicate keys; the spread keeps the base object's key order,
overriding values present in the patch, and appends the patch's new keys. -/

inductive Leaf where
  | num (n : Nat)
  | str (s : String)
deriving DecidableEq, Repr

/-- A parameter value: a scalar leaf or a (one-level) nested object — enough
of the JSON universe to distinguish a shallow spread from a deep merge. -/
inductive Val where
  | leaf (l : Leaf)
  | obj (fields : List (String × Leaf))
deriving DecidableEq, Repr

/-- Key lookup in an object. -/
def objGet {α : Type} (o : List (String × α)) (k : String) : Option α :=
  (o.find? (fun kv => kv.1 == k)).map (fun kv => kv.2)

/-- JavaScript object spread `{ ...a, ...b }` (shallow): keys of `a` in order
with values overridden where `b` has the key, then the new keys of `b`. -/
def spreadObj {α : Type} (a b : List (String × α)) : List (String × α) :=
  a.map (fun kv => (kv.1, (objGet b kv.1).getD kv.2)) ++
    b.filter (fun kv => (objGet a kv.1).isNone)

/-- Modelled from the spec: the "deep-merge ... of each plugin's partial patch
over the original" of §8 — when a key holds objects on both sides they are
merged recursively (which at the leaf level is the key-wise override), the
patch value wins otherwise.  This function is the spec's comparison point; the
source code itself performs the shallow `spreadObj` merge. -/
def deepMergeVal (v w : Val) : Val :=
  match v, w with
  | Val.obj a, Val.obj b => Val.obj (spreadObj a b)
  | _, w => w

/-- Modelled from the spec: deep merge of two parameter objects. -/
def deepMergeObj (a b : List (String × Val)) : List (String × Val) :=
  a.map (fun kv =>
      match objGet b kv.1 with
      | some w => (kv.1, deepMergeVal kv.2 w)
      | none => kv) ++
    b.filter (fun kv => (objGet a kv.1).isNone)

/-! ## Plugin engine (PluginEngine / PluginManager)

Models `packages/aiCore/src/core/plugins/manager.ts` and the three
`execute*WithPlugins` methods of the runtime `PluginEngine`.  Hooks are
embedded as pure functions from the request context; a hook that throws
returns `Except.error`.  The engine additionally records a trace of the hook
and executor invocations it performs, which the theorems use to observe
ordering (`Promise.all` over the parallel hooks is embedded as left-to-right
sequencing on the single-threaded event loop, stopping at the first
rejection). -/

inductive EnforceTag where
  | pre
  | post
deriving DecidableEq, Repr

/-- A resolved model handle; `wrapped` is the result of `wrapLanguageModel`
with the middleware list applied in one call. -/
inductive RModel where
  | base (modelId : String)
  | wrapped (middleware : List Nat) (inner : RModel)
deriving DecidableEq, Repr

/-- The `model` parameter: a string identifier or an already-resolved handle. -/
inductive MArg where
  | str (id : String)
  | handle (m : RModel)
deriving DecidableEq, Repr

/-- Request parameters: the `model` field plus the remaining object fields. -/
structure Params where
  model : MArg
  rest : List (String × Val)
deriving DecidableEq, Repr

/-- A `Partial<TParams>`: the keys present in the patch. -/
structure ParamsPatch where
  model : Option MArg := none
  rest : List (String × Val) := []
deriving DecidableEq, Repr

/-- `{ ...params, ...patch }`. -/
def applyPatch (p : Params) (patch : ParamsPatch) : Params :=
  { model := patch.model.getD p.model, rest := spreadObj p.rest patch.rest }

/-- Request context fields relevant to the engine claims. -/
structure ECtx where
  recursiveDepth : Nat
  maxRecursiveDepth : Nat
  isRecursiveCall : Bool
  middlewares : List Nat
deriving DecidableEq, Repr

inductive EngErr where
  | recursiveDepth (currentDepth maxDepth : Nat)
  | modelResolution (modelId providerId : String)
  | hookFail (code : Nat)
deriving DecidableEq, Repr

inductive HookName where
  | configureContext
  | onRequestStart
  | resolveModel
  | transformParams
  | transformResult
  | onRequestEnd
  | onError
deriving DecidableEq, Repr

inductive Ev where
  | hook (plugin : String) (h : HookName)
  | executorRun (m : RModel)
deriving DecidableEq, Repr

deriving instance DecidableEq for Except

/-- A plugin: a name, an optional tier, and a partial set of hooks. -/
structure EPlugin where
  name : String
  enforce : Option EnforceTag := none
  configureContext : Option (ECtx → Except EngErr ECtx) := none
  onRequestStart : Option (ECtx → Except EngErr ECtx) := none
  resolveModel : Option (String → ECtx → Except EngErr (Option RModel)) := none
  transformParams : Option (Params → ECtx → Except EngErr ParamsPatch) := none
  transformResult : Option (Val → ECtx → Except EngErr Val) := none
  onRequestEnd : Option (ECtx → Val → Except EngErr ECtx) := none
  onError : Option (EngErr → ECtx → Except EngErr ECtx) := none
  transformStream : Bool := false

/-- `sortPlugins`: stable partition pre → normal → post. -/
def tierOf (p : EPlugin) : Nat :=
  match p.enforce with
  | some EnforceTag.pre => 0
  | none => 1
  | some EnforceTag.post => 2

def sortPlugins (ps : List EPlugin) : List EPlugin :=
  ps.filter (fun p => tierOf p == 0) ++ ps.filter (fun p => tierOf p == 1) ++
    ps.filter (fun p => tierOf p == 2)

/-- `executeConfigureContext`: sequential, mutate-in-place; returns the first
error (if any), the context after the hooks that ran, and the trace. -/
def runConfigure : List EPlugin → ECtx → Option EngErr × ECtx × List Ev
  | [], ctx => (none, ctx, [])
  | p :: ps, ctx =>
    match p.configureContext with
    | none => runConfigure ps ctx
    | some f =>
      match f ctx with
      | Except.error e => (some e, ctx, [Ev.hook p.name HookName.configureContext])
      | Except.ok ctx' =>
        let (r, c, tr) := runConfigure ps ctx'
        (r, c, Ev.hook p.name HookName.configureContext :: tr)

/-- `executeParallel('onRequestStart')`. -/
def runStartHooks : List EPlugin → ECtx → Option EngErr × ECtx × List Ev
  | [], ctx => (none, ctx, [])
  | p :: ps, ctx =>
    match p.onRequestStart with
    | none => runStartHooks ps ctx
    | some f =>
      match f ctx with
      | Except.error e => (some e, ctx, [Ev.hook p.name HookName.onRequestStart])
      | Except.ok ctx' =>
        let (r, c, tr) := runStartHooks ps ctx'
        (r, c, Ev.hook p.name HookName.onRequestStart :: tr)

/-- `executeParallel('onRequestEnd', ..., result)`. -/
def runEndHooks : List EPlugin → ECtx → Val → Option EngErr × ECtx × List Ev
  | [], ctx, _ => (none, ctx, [])
  | p :: ps, ctx, v =>
    match p.onRequestEnd with
    | none => runEndHooks ps ctx v
    | some f =>
      match f ctx v with
      | Except.error e => (some e, ctx, [Ev.hook p.name HookName.onRequestEnd])
      | Except.ok ctx' =>
        let (r, c, tr) := runEndHooks ps ctx' v
        (r, c, Ev.hook p.name HookName.onRequestEnd :: tr)

/-- `executeParallel('onError', ..., error)`. -/
def runErrorHooks : List EPlugin → EngErr → ECtx → Option EngErr × ECtx × List Ev
  | [], _, ctx => (none, ctx, [])
  | p :: ps, e, ctx =>
    match p.onError with
    | none => runErrorHooks ps e ctx
    | some f =>
      match f e ctx with
      | Except.error e2 => (some e2, ctx, [Ev.hook p.name HookName.onError])
      | Except.ok ctx' =>
        let (r, c, tr) := runErrorHooks ps e ctx'
        (r, c, Ev.hook p.name HookName.onError :: tr)

/-- `executeFirst('resolveModel', ...)`: first non-null return wins. -/
def runResolveFirst : List EPlugin → String → ECtx →
    Except EngErr (Option RModel) × List Ev
  | [], _, _ => (Except.ok none, [])
  | p :: ps, mid, ctx =>
    match p.resolveModel with
    | none => runResolveFirst ps mid ctx
    | some f =>
      match f mid ctx with
      | Except.error e => (Except.error e, [Ev.hook p.name HookName.resolveModel])
      | Except.ok (some m) => (Except.ok (some m), [Ev.hook p.name HookName.resolveModel])
      | Except.ok none =>
        let (r, tr) := runResolveFirst ps mid ctx
        (r, Ev.hook p.name HookName.resolveModel :: tr)

/-- `executeTransformParams`: chained `result = { ...result, ...partial }`. -/
def runTransformParamsHooks : List EPlugin → Params → ECtx →
    Except EngErr Params × List Ev
  | [], prm, _ => (Except.ok prm, [])
  | p :: ps, prm, ctx =>
    match p.transformParams with
    | none => runTransformParamsHooks ps prm ctx
    | some f =>
      match f prm ctx with
      | Except.error e => (Except.error e, [Ev.hook p.name HookName.transformParams])
      | Except.ok patch =>
        let (r, tr) := runTransformParamsHooks ps (applyPatch prm patch) ctx
        (r, Ev.hook p.name HookName.transformParams :: tr)

/-- `executeTransformResult`: chained complete-value transformation. -/
def runTransformResultHooks : List EPlugin → Val → ECtx →
    Except EngErr Val × List Ev
  | [], v, _ => (Except.ok v, [])
  | p :: ps, v, ctx =>
    match p.transformResult with
    | none => runTransformResultHooks ps v ctx
    | some f =>
      match f v ctx with
      | Except.error e => (Except.error e, [Ev.hook p.name HookName.transformResult])
      | Except.ok v' =>
        let (r, tr) := runTransformResultHooks ps v' ctx
        (r, Ev.hook p.name HookName.transformResult :: tr)

/-- `collectStreamTransforms`: the ordered list of stream-transform owners. -/
def collectStreamTransforms (sps : List EPlugin) : List String :=
  (sps.filter (fun p => p.transformStream)).map (fun p => p.name)

/-- Steps 3–6 shared by all call shapes: transformParams, executor invocation
(logged in the trace with the model handle it receives), transformResult,
onRequestEnd. -/
def postResolve (sps : List EPlugin) (invoke : Params → Except EngErr Val)
    (m1 : RModel) (params : Params) (ctx : ECtx) :
    Except EngErr Val × ECtx × List Ev :=
  match runTransformParamsHooks sps params ctx with
  | (Except.error e, trT) => (Except.error e, ctx, trT)
  | (Except.ok tp, trT) =>
    match invoke tp with
    | Except.error e => (Except.error e, ctx, trT ++ [Ev.executorRun m1])
    | Except.ok res =>
      match runTransformResultHooks sps res ctx with
      | (Except.error e, trR) =>
        (Except.error e, ctx, trT ++ [Ev.executorRun m1] ++ trR)
      | (Except.ok res2, trR) =>
        match runEndHooks sps ctx res2 with
        | (some e, ctx2, trE) =>
          (Except.error e, ctx2, trT ++ [Ev.executorRun m1] ++ trR ++ trE)
        | (none, ctx2, trE) =>
          (Except.ok res2, ctx2, trT ++ [Ev.executorRun m1] ++ trR ++ trE)

/-- The try-block of `executeWithPlugins` (non-streaming generate): configure,
start, resolve, unconditional middleware application, then `postResolve`. -/
def tryPhaseGen (providerId : String) (sps : List EPlugin)
    (executor : RModel → Params → Except EngErr Val) (params : Params)
    (ctx : ECtx) : Except EngErr Val × ECtx × List Ev :=
  match runConfigure sps ctx with
  | (some e, c0, t0) => (Except.error e, c0, t0)
  | (none, c0, t0) =>
    match runStartHooks sps c0 with
    | (some e, c1, t1) => (Except.error e, c1, t0 ++ t1)
    | (none, c1, t1) =>
      match params.model with
      | MArg.str mid =>
        match runResolveFirst sps mid c1 with
        | (Except.error e, tR) => (Except.error e, c1, t0 ++ t1 ++ tR)
        | (Except.ok none, tR) =>
          (Except.error (EngErr.modelResolution mid providerId), c1, t0 ++ t1 ++ tR)
        | (Except.ok (some m), tR) =>
          let m1 := if c1.middlewares.isEmpty then m
                    else RModel.wrapped c1.middlewares m
          let (r, c2, t2) := postResolve sps (fun tp => executor m1 tp) m1 params c1
          (r, c2, t0 ++ t1 ++ tR ++ t2)
      | MArg.handle m =>
        let m1 := if c1.middlewares.isEmpty then m
                  else RModel.wrapped c1.middlewares m
        let (r, c2, t2) := postResolve sps (fun tp => executor m1 tp) m1 params c1
        (r, c2, t0 ++ t1 ++ t2)

/-- The try-block of `executeStreamWithPlugins`: identical skeleton, except the
middleware application is guarded by `typeof model !== 'string'`, and the
executor additionally receives the collected stream transforms. -/
def tryPhaseStream (providerId : String) (sps : List EPlugin)
    (executor : RModel → Params → List String → Except EngErr Val)
    (params : Params) (ctx : ECtx) : Except EngErr Val × ECtx × List Ev :=
  match runConfigure sps ctx with
  | (some e, c0, t0) => (Except.error e, c0, t0)
  | (none, c0, t0) =>
    match runStartHooks sps c0 with
    | (some e, c1, t1) => (Except.error e, c1, t0 ++ t1)
    | (none, c1, t1) =>
      match params.model with
      | MArg.str mid =>
        match runResolveFirst sps mid c1 with
        | (Except.error e, tR) => (Except.error e, c1, t0 ++ t1 ++ tR)
        | (Except.ok none, tR) =>
          (Except.error (EngErr.modelResolution mid providerId), c1, t0 ++ t1 ++ tR)
        | (Except.ok (some m), tR) =>
          let (r, c2, t2) :=
            postResolve sps (fun tp => executor m tp (collectStreamTransforms sps))
              m params c1
          (r, c2, t0 ++ t1 ++ tR ++ t2)
      | MArg.handle m =>
        let m1 := if c1.middlewares.isEmpty then m
                  else RModel.wrapped c1.middlewares m
        let (r, c2, t2) :=
          postResolve sps (fun tp => executor m1 tp (collectStreamTransforms sps))
            m1 params c1
        (r, c2, t0 ++ t1 ++ t2)

/-- The try-block of `executeImageWithPlugins`: identical skeleton, but the
method has no middleware-application step at all. -/
def tryPhaseImage (providerId : String) (sps : List EPlugin)
    (executor : RModel → Params → Except EngErr Val) (params : Params)
    (ctx : ECtx) : Except EngErr Val × ECtx × List Ev :=
  match runConfigure sps ctx with
  | (some e, c0, t0) => (Except.error e, c0, t0)
  | (none, c0, t0) =>
    match runStartHooks sps c0 with
    | (some e, c1, t1) => (Except.error e, c1, t0 ++ t1)
    | (none, c1, t1) =>
      match params.model with
      | MArg.str mid =>
        match runResolveFirst sps mid c1 with
        | (Except.error e, tR) => (Except.error e, c1, t0 ++ t1 ++ tR)
        | (Except.ok none, tR) =>
          (Except.error (EngErr.modelResolution mid providerId), c1, t0 ++ t1 ++ tR)
        | (Except.ok (some m), tR) =>
          let (r, c2, t2) := postResolve sps (fun tp => executor m tp) m params c1
          (r, c2, t0 ++ t1 ++ tR ++ t2)
      | MArg.handle m =>
        let (r, c2, t2) := postResolve sps (fun tp => executor m tp) m params c1
        (r, c2, t0 ++ t1 ++ t2)

/-- The catch-block shared by all three methods: run `onError` with the
caught error, then re-throw it (a failure inside an `onError` hook itself
replaces the propagated error, as `await Promise.all` would). -/
def catchPhase (sps : List EPlugin) (e : EngErr) (ctx : ECtx) (tr : List Ev) :
    Except EngErr Val × ECtx × List Ev :=
  match runErrorHooks sps e ctx with
  | (some e2, c2, t2) => (Except.error e2, c2, tr ++ t2)
  | (none, c2, t2) => (Except.error e, c2, tr ++ t2)

/-- `PluginEngine.executeWithPlugins` (non-streaming). -/
def executeWithPlugins (providerId : String) (basePlugins : List EPlugin)
    (executor : RModel → Params → Except EngErr Val) (params : Params)
    (ctx : ECtx) : Except EngErr Val × ECtx × List Ev :=
  let sps := sortPlugins basePlugins
  match tryPhaseGen providerId sps executor params ctx with
  | (Except.ok v, c, t) => (Except.ok v, c, t)
  | (Except.error e, c, t) => catchPhase sps e c t

/-- `PluginEngine.executeStreamWithPlugins`. -/
def executeStreamWithPlugins (providerId : String) (basePlugins : List EPlugin)
    (executor : RModel → Params → List String → Except EngErr Val)
    (params : Params) (ctx : ECtx) : Except EngErr Val × ECtx × List Ev :=
  let sps := sortPlugins basePlugins
  match tryPhaseStream providerId sps executor params ctx with
  | (Except.ok v, c, t) => (Except.ok v, c, t)
  | (Except.error e, c, t) => catchPhase sps e c t

/-- `PluginEngine.executeImageWithPlugins`. -/
def executeImageWithPlugins (providerId : String) (basePlugins : List EPlugin)
    (executor : RModel → Params → Except EngErr Val) (params : Params)
    (ctx : ECtx) : Except EngErr Val × ECtx × List Ev :=
  let sps := sortPlugins basePlugins
  match tryPhaseImage providerId sps executor params ctx with
  | (Except.ok v, c, t) => (Except.ok v, c, t)
  | (Except.error e, c, t) => catchPhase sps e c t

/-- `context.recursiveCall` as installed by `executeWithPlugins`: depth guard,
increment depth / set the flag, re-enter the same lifecycle with
`{ ...params, ...newParams }`, restore depth and flag in a `finally`. -/
def recursiveCallGen (providerId : String) (basePlugins : List EPlugin)
    (executor : RModel → Params → Except EngErr Val) (params : Params)
    (ctx : ECtx) (newParams : ParamsPatch) : Except EngErr Val × ECtx × List Ev :=
  if ctx.maxRecursiveDepth ≤ ctx.recursiveDepth then
    (Except.error (EngErr.recursiveDepth ctx.recursiveDepth ctx.maxRecursiveDepth),
      ctx, [])
  else
    let previousDepth := ctx.recursiveDepth
    let wasRecursive := ctx.isRecursiveCall
    let entered := { ctx with recursiveDepth := previousDepth + 1,
                              isRecursiveCall := true }
    let (r, c2, t2) :=
      executeWithPlugins providerId basePlugins executor
        (applyPatch params newParams) entered
    (r, { c2 with recursiveDepth := previousDepth, isRecursiveCall := wasRecursive },
      t2)

/-- `context.recursiveCall` as installed by `executeStreamWithPlugins`. -/
def recursiveCallStream (providerId : String) (basePlugins : List EPlugin)
    (executor : RModel → Params → List String → Except EngErr Val)
    (params : Params) (ctx : ECtx) (newParams : ParamsPatch) :
    Except EngErr Val × ECtx × List Ev :=
  if ctx.maxRecursiveDepth ≤ ctx.recursiveDepth then
    (Except.error (EngErr.recursiveDepth ctx.recursiveDepth ctx.maxRecursiveDepth),
      ctx, [])
  else
    let previousDepth := ctx.recursiveDepth
    let wasRecursive := ctx.isRecursiveCall
    let entered := { ctx with recursiveDepth := previousDepth + 1,
                              isRecursiveCall := true }
    let (r, c2, t2) :=
      executeStreamWithPlugins providerId basePlugins executor
        (applyPatch params newParams) entered
    (r, { c2 with recursiveDepth := previousDepth, isRecursiveCall := wasRecursive },
      t2)

/-- `{ ...params, ...patch }` with the spec's deep merge instead of the
shallow spread (the spec-side comparison point for C8). -/
def deepApplyPatch (p : Params) (patch : ParamsPatch) : Params :=
  { model := patch.model.getD p.model, rest := deepMergeObj p.rest patch.rest }

/-- A plugin whose `transformParams` returns a fixed partial patch. -/
def constPatchPlugin (nm : String) (patch : ParamsPatch) : EPlugin :=
  { name := nm, transformParams := some (fun _ _ => Except.ok patch) }

/-! ### Trace bookkeeping lemmas -/

def isHookEv (ev : Ev) : Bool :=
  match ev with
  | Ev.hook _ _ => true
  | _ => false

/-- The models handed to the executor, read off the trace. -/
def executorModels (tr : List Ev) : List RModel :=
  tr.filterMap (fun ev => match ev with | Ev.executorRun m => some m | _ => none)

theorem executorModels_append (t1 t2 : List Ev) :
    executorModels (t1 ++ t2) = executorModels t1 ++ executorModels t2 := by
  simp [executorModels]

theorem executorModels_of_hooks (tr : List Ev) (h : tr.all isHookEv = true) :
    executorModels tr = [] := by
  induction tr with
  | nil => rfl
  | cons ev rest ih =>
    rw [List.all_cons, Bool.and_eq_true] at h
    rcases ev with ⟨nm, hk⟩ | m
    · simpa [executorModels] using ih h.2
    · simp [isHookEv] at h

theorem allHooks_runConfigure (ps : List EPlugin) (ctx : ECtx) :
    (runConfigure ps ctx).2.2.all isHookEv = true := by
  induction ps generalizing ctx with
  | nil => rfl
  | cons p rest ih =>
    simp only [runConfigure]
    rcases hc : p.configureContext with _ | f
    · exact ih ctx
    · rcases hf : f ctx with e' | ctx'
      · simp [hf, isHookEv]
      · simp [hf, isHookEv, ih ctx']

theorem allHooks_runStartHooks (ps : List EPlugin) (ctx : ECtx) :
    (runStartHooks ps ctx).2.2.all isHookEv = true := by
  induction ps generalizing ctx with
  | nil => rfl
  | cons p rest ih =>
    simp only [runStartHooks]
    rcases hc : p.onRequestStart with _ | f
    · exact ih ctx
    · rcases hf : f ctx with e' | ctx'
      · simp [hf, isHookEv]
      · simp [hf, isHookEv, ih ctx']

theorem allHooks_runEndHooks (ps : List EPlugin) (ctx : ECtx) (v : Val) :
    (runEndHooks ps ctx v).2.2.all isHookEv = true := by
  induction ps generalizing ctx with
  | nil => rfl
  | cons p rest ih =>
    simp only [runEndHooks]
    rcases hc : p.onRequestEnd with _ | f
    · exact ih ctx
    · rcases hf : f ctx v with e' | ctx'
      · simp [hf, isHookEv]
      · simp [hf, isHookEv, ih ctx']

theorem allHooks_runErrorHooks (ps : List EPlugin) (e : EngErr) (ctx : ECtx) :
    (runErrorHooks ps e ctx).2.2.all isHookEv = true := by
  induction ps generalizing ctx with
  | nil => rfl
  | cons p rest ih =>
    simp only [runErrorHooks]
    rcases hc : p.onError with _ | f
    · exact ih ctx
    · rcases hf : f e ctx with e2 | ctx'
      · simp [hf, isHookEv]
      · simp [hf, isHookEv, ih ctx']

theorem allHooks_runResolveFirst (ps : List EPlugin) (mid : String) (ctx : ECtx) :
    (runResolveFirst ps mid ctx).2.all isHookEv = true := by
  induction ps with
  | nil => rfl
  | cons p rest ih =>
    simp only [runResolveFirst]
    rcases hc : p.resolveModel with _ | f
    · exact ih
    · rcases hf : f mid ctx with e' | m
      · simp [hf, isHookEv]
      · rcases m with _ | m <;> simp [hf, isHookEv, ih]

theorem allHooks_runTransformParamsHooks (ps : List EPlugin) (prm : Params)
    (ctx : ECtx) : (runTransformParamsHooks ps prm ctx).2.all isHookEv = true := by
  induction ps generalizing prm with
  | nil => rfl
  | cons p rest ih =>
    simp only [runTransformParamsHooks]
    rcases hc : p.transformParams with _ | f
    · exact ih prm
    · rcases hf : f prm ctx with e' | patch
      · simp [hf, isHookEv]
      · simp [hf, isHookEv, ih (applyPatch prm patch)]

theorem allHooks_runTransformResultHooks (ps : List EPlugin) (v : Val)
    (ctx : ECtx) : (runTransformResultHooks ps v ctx).2.all isHookEv = true := by
  induction ps generalizing v with
  | nil => rfl
  | cons p rest ih =>
    simp only [runTransformResultHooks]
    rcases hc : p.transformResult with _ | f
    · exact ih v
    · rcases hf : f v ctx with e' | v'
      · simp [hf, isHookEv]
      · simp [hf, isHookEv, ih v']

theorem executorModels_sandwich (a b : List Ev) (m : RModel)
    (ha : a.all isHookEv = true) (hb : b.all isHookEv = true) :
    executorModels (a ++ Ev.executorRun m :: b) = [m] := by
  have h1 := executorModels_of_hooks a ha
  have h2 := executorModels_of_hooks b hb
  simp only [executorModels] at h1 h2 ⊢
  simp [List.filterMap_append, h1, h2]

/-- When `transformParams` succeeds, the executor is invoked exactly once in
`postResolve`, with the model handle `m1`. -/
theorem executorModels_postResolve (sps : List EPlugin)
    (invoke : Params → Except EngErr Val) (m1 : RModel) (params : Params)
    (ctx : ECtx) (tp : Params) (trT : List Ev)
    (h : runTransformParamsHooks sps params ctx = (Except.ok tp, trT)) :
    executorModels (postResolve sps invoke m1 params ctx).2.2 = [m1] := by
  have hTall : trT.all isHookEv = true := by
    have := allHooks_runTransformParamsHooks sps params ctx
    rw [h] at this
    exact this
  simp only [postResolve, h]
  rcases hi : invoke tp with e | res
  · exact executorModels_sandwich trT [] m1 hTall rfl
  · rcases hR : runTransformResultHooks sps res ctx with ⟨r, trR⟩
    have hRall : trR.all isHookEv = true := by
      have := allHooks_runTransformResultHooks sps res ctx
      rw [hR] at this
      exact this
    rcases r with e | res2
    · simp only [hR]
      simpa only [List.append_assoc, List.singleton_append] using
        executorModels_sandwich trT trR m1 hTall hRall
    · rcases hE : runEndHooks sps ctx res2 with ⟨r2, c2, trE⟩
      have hEall : trE.all isHookEv = true := by
        have := allHooks_runEndHooks sps ctx res2
        rw [hE] at this
        exact this
      have hbAll : (trR ++ trE).all isHookEv = true := by
        rw [List.all_append, hRall, hEall]
        rfl
      rcases r2 with _ | e2 <;> simp only [hR, hE] <;>
        simpa only [List.append_assoc, List.singleton_append] using
          executorModels_sandwich trT (trR ++ trE) m1 hTall hbAll

/-! ### C1: recursion guard and depth/flag restoration -/

/-- C1: for a context at depth `d` below `maxRecursiveDepth`, invoking the
context's `recursiveCall` with a parameter override re-enters the lifecycle
with `{ ...params, ...override }` at depth `d+1` with `isRecursiveCall = true`
(its result and trace are passed through unchanged, whether the nested call
returns or throws), and the returned context carries the pre-call
`recursiveDepth` and `isRecursiveCall` (the `finally` restore); at
`d ≥ maxRecursiveDepth` the call fails with the recursion-depth error and the
context is unchanged.  Both the generate-path and the stream-path
`recursiveCall` closures are covered. -/
theorem recursiveCall_guard_and_restore (providerId : String)
    (basePlugins : List EPlugin)
    (executorG : RModel → Params → Except EngErr Val)
    (executorS : RModel → Params → List String → Except EngErr Val)
    (params : Params) (ctx : ECtx) (newParams : ParamsPatch) :
    (ctx.recursiveDepth < ctx.maxRecursiveDepth →
      recursiveCallGen providerId basePlugins executorG params ctx newParams =
        ((executeWithPlugins providerId basePlugins executorG
            (applyPatch params newParams)
            { ctx with recursiveDepth := ctx.recursiveDepth + 1,
                       isRecursiveCall := true }).1,
         { (executeWithPlugins providerId basePlugins executorG
              (applyPatch params newParams)
              { ctx with recursiveDepth := ctx.recursiveDepth + 1,
                         isRecursiveCall := true }).2.1 with
             recursiveDepth := ctx.recursiveDepth,
             isRecursiveCall := ctx.isRecursiveCall },
         (executeWithPlugins providerId basePlugins executorG
            (applyPatch params newParams)
            { ctx with recursiveDepth := ctx.recursiveDepth + 1,
                       isRecursiveCall := true }).2.2) ∧
      (recursiveCallGen providerId basePlugins executorG params ctx
          newParams).2.1.recursiveDepth = ctx.recursiveDepth ∧
      (recursiveCallGen providerId basePlugins executorG params ctx
          newParams).2.1.isRecursiveCall = ctx.isRecursiveCall) ∧
    (ctx.maxRecursiveDepth ≤ ctx.recursiveDepth →
      recursiveCallGen providerId basePlugins executorG params ctx newParams =
        (Except.error (EngErr.recursiveDepth ctx.recursiveDepth
          ctx.maxRecursiveDepth), ctx, [])) ∧
    (ctx.recursiveDepth < ctx.maxRecursiveDepth →
      recursiveCallStream providerId basePlugins executorS params ctx newParams =
        ((executeStreamWithPlugins providerId basePlugins executorS
            (applyPatch params newParams)
            { ctx with recursiveDepth := ctx.recursiveDepth + 1,
                       isRecursiveCall := true }).1,
         { (executeStreamWithPlugins providerId basePlugins executorS
              (applyPatch params newParams)
              { ctx with recursiveDepth := ctx.recursiveDepth + 1,
                         isRecursiveCall := true }).2.1 with
             recursiveDepth := ctx.recursiveDepth,
             isRecursiveCall := ctx.isRecursiveCall },
         (executeStreamWithPlugins providerId basePlugins executorS
            (applyPatch params newParams)
            { ctx with recursiveDepth := ctx.recursiveDepth + 1,
                       isRecursiveCall := true }).2.2) ∧
      (recursiveCallStream providerId basePlugins executorS params ctx
          newParams).2.1.recursiveDepth = ctx.recursiveDepth ∧
      (recursiveCallStream providerId basePlugins executorS params ctx
          newParams).2.1.isRecursiveCall = ctx.isRecursiveCall) ∧
    (ctx.maxRecursiveDepth ≤ ctx.recursiveDepth →
      recursiveCallStream providerId basePlugins executorS params ctx newParams =
        (Except.error (EngErr.recursiveDepth ctx.recursiveDepth
          ctx.maxRecursiveDepth), ctx, [])) := by
  refine ⟨?_, ?_, ?_, ?_⟩
  · intro h
    rcases hE : executeWithPlugins providerId basePlugins executorG
        (applyPatch params newParams)
        { ctx with recursiveDepth := ctx.recursiveDepth + 1,
                   isRecursiveCall := true } with ⟨r, c2, t2⟩
    simp [recursiveCallGen, Nat.not_le.mpr h, hE]
  · intro h
    simp [recursiveCallGen, h]
  · intro h
    rcases hE : executeStreamWithPlugins providerId basePlugins executorS
        (applyPatch params newParams)
        { ctx with recursiveDepth := ctx.recursiveDepth + 1,
                   isRecursiveCall := true } with ⟨r, c2, t2⟩
    simp [recursiveCallStream, Nat.not_le.mpr h, hE]
  · intro h
    simp [recursiveCallStream, h]

/-- Witness for `recursiveCall_guard_and_restore`: a context at depth 0 with
limit 10 (the guard passes) and a context at depth 10 (the guard fails). -/
theorem recursiveCall_guard_and_restore_witness :
    (recursiveCallGen "p" [] (fun _ _ => Except.ok (Val.leaf (Leaf.num 1)))
        { model := MArg.handle (RModel.base "m"), rest := [] }
        { recursiveDepth := 0, maxRecursiveDepth := 10, isRecursiveCall := false,
          middlewares := [] } {}).2.1.recursiveDepth = 0 ∧
    recursiveCallGen "p" [] (fun _ _ => Except.ok (Val.leaf (Leaf.num 1)))
        { model := MArg.handle (RModel.base "m"), rest := [] }
        { recursiveDepth := 10, maxRecursiveDepth := 10, isRecursiveCall := false,
          middlewares := [] } {} =
      (Except.error (EngErr.recursiveDepth 10 10),
        { recursiveDepth := 10, maxRecursiveDepth := 10, isRecursiveCall := false,
          middlewares := [] }, []) := by
  constructor
  · exact (recursiveCall_guard_and_restore "p" [] _ (fun _ _ _ => Except.ok (Val.leaf (Leaf.num 1)))
      _ _ _).1 (by decide) |>.2.1
  · exact (recursiveCall_guard_and_restore "p" [] _ (fun _ _ _ => Except.ok (Val.leaf (Leaf.num 1)))
      _ _ _).2.1 (by decide)

/-! ### C8: transformParams merging -/

theorem spreadObj_nil {α : Type} (a : List (String × α)) : spreadObj a [] = a := by
  induction a with
  | nil => rfl
  | cons kv r ih =>
    simp [spreadObj, objGet] at ih ⊢

theorem applyPatch_empty (p : Params) : applyPatch p {} = p := by
  rcases p with ⟨m, rest⟩
  simp [applyPatch, spreadObj_nil]

/-- C8 counterexample: with one plugin returning the nested patch
`{a: {x: 3}}` over the original `{a: {x: 1, y: 2}}`, the source's shallow
spread gives `{a: {x: 3}}`, which differs from the spec's deep merge
`{a: {x: 3, y: 2}}` — the claim's "deep-merge" description is false. -/
theorem transformParams_deep_merge_counterexample :
    (runTransformParamsHooks
        [constPatchPlugin "p1"
          { rest := [("a", Val.obj [("x", Leaf.num 3)])] }]
        { model := MArg.handle (RModel.base "m"),
          rest := [("a", Val.obj [("x", Leaf.num 1), ("y", Leaf.num 2)])] }
        { recursiveDepth := 0, maxRecursiveDepth := 10, isRecursiveCall := false,
          middlewares := [] }).1 =
      Except.ok { model := MArg.handle (RModel.base "m"),
                  rest := [("a", Val.obj [("x", Leaf.num 3)])] } ∧
    deepApplyPatch
        { model := MArg.handle (RModel.base "m"),
          rest := [("a", Val.obj [("x", Leaf.num 1), ("y", Leaf.num 2)])] }
        { rest := [("a", Val.obj [("x", Leaf.num 3)])] } =
      { model := MArg.handle (RModel.base "m"),
        rest := [("a", Val.obj [("x", Leaf.num 3), ("y", Leaf.num 2)])] } ∧
    ({ model := MArg.handle (RModel.base "m"),
       rest := [("a", Val.obj [("x", Leaf.num 3)])] } : Params) ≠
      { model := MArg.handle (RModel.base "m"),
        rest := [("a", Val.obj [("x", Leaf.num 3), ("y", Leaf.num 2)])] } := by
  refine ⟨by decide, by decide, by decide⟩

/-- C8 (amended): the final parameter object produced by
`executeTransformParams` equals the fold, in the manager's plugin order, of
the JavaScript shallow spread `{ ...result, ...patch }` of each plugin's
partial patch over the original parameters, and the merge is idempotent for
an empty patch (`{ ...p }` leaves `p` unchanged). -/
theorem transformParams_shallow_fold (pats : List (String × ParamsPatch))
    (p0 : Params) (ctx : ECtx) :
    (runTransformParamsHooks (pats.map (fun x => constPatchPlugin x.1 x.2))
        p0 ctx).1 =
      Except.ok (List.foldl applyPatch p0 (pats.map (fun x => x.2))) ∧
    (∀ p : Params, applyPatch p {} = p) := by
  constructor
  · induction pats generalizing p0 with
    | nil => rfl
    | cons x rest ih =>
      simp only [List.map_cons, runTransformParamsHooks, constPatchPlugin,
        List.foldl_cons]
      exact ih (applyPatch p0 x.2)
  · exact applyPatch_empty

/-! ### C9: error path -/

theorem runErrorHooks_ok_trace (ps : List EPlugin) (e : EngErr) (ctx : ECtx)
    (ctx2 : ECtx) (tr : List Ev)
    (h : runErrorHooks ps e ctx = (none, ctx2, tr)) :
    tr = (ps.filter (fun p => p.onError.isSome)).map
      (fun p => Ev.hook p.name HookName.onError) := by
  induction ps generalizing ctx tr with
  | nil =>
    simp only [runErrorHooks, Prod.mk.injEq] at h
    rw [← h.2.2]
    rfl
  | cons p rest ih =>
    rcases hc : p.onError with _ | f
    · simp only [runErrorHooks, hc] at h
      simp [List.filter_cons, hc, ih ctx tr h]
    · simp only [runErrorHooks, hc] at h
      rcases hf : f e ctx with e2 | ctx'
      · simp only [hf, Prod.mk.injEq] at h
        exact absurd h.1 (by simp)
      · simp only [hf] at h
        rcases hrest : runErrorHooks rest e ctx' with ⟨r, c, tr'⟩
        rw [hrest] at h
        simp only [Prod.mk.injEq] at h
        obtain ⟨h1, h2, h3⟩ := h
        simp [List.filter_cons, hc, ← h3, ih ctx' tr' (by rw [hrest, ← h1, ← h2])]

/-- C9: if the try-phase of `executeWithPlugins` throws any error `e` (this
covers every lifecycle step — model resolution, transformParams, the executor
invocation, transformResult and onRequestEnd), and the `onError` hooks
themselves succeed, then the engine runs the `onError` hook of every plugin
implementing it (in sorted plugin order), re-throws the same error `e`, and
the catch path runs no `onRequestEnd` hook (every event it appends is an
`onError` event). -/
theorem engine_error_path (providerId : String) (basePlugins : List EPlugin)
    (executor : RModel → Params → Except EngErr Val) (params : Params)
    (ctx : ECtx) (e : EngErr) (c1 : ECtx) (t1 : List Ev) (cE : ECtx)
    (tE : List Ev)
    (hTry : tryPhaseGen providerId (sortPlugins basePlugins) executor params ctx =
      (Except.error e, c1, t1))
    (hErr : runErrorHooks (sortPlugins basePlugins) e c1 = (none, cE, tE)) :
    executeWithPlugins providerId basePlugins executor params ctx =
      (Except.error e, cE, t1 ++ tE) ∧
    tE = ((sortPlugins basePlugins).filter (fun p => p.onError.isSome)).map
      (fun p => Ev.hook p.name HookName.onError) ∧
    (∀ ev ∈ tE, ∀ nm, ev ≠ Ev.hook nm HookName.onRequestEnd) := by
  refine ⟨?_, ?_, ?_⟩
  · simp [executeWithPlugins, hTry, catchPhase, hErr]
  · exact runErrorHooks_ok_trace _ _ _ _ _ hErr
  · intro ev hev nm
    rw [runErrorHooks_ok_trace _ _ _ _ _ hErr] at hev
    simp only [List.mem_map] at hev
    obtain ⟨p, hp, rfl⟩ := hev
    simp

/-- Witness for `engine_error_path`: a failing executor plus one plugin with
an `onError` hook. -/
theorem engine_error_path_witness :
    executeWithPlugins "openai"
        [{ name := "watch",
           onError := some (fun _ c => Except.ok c) }]
        (fun _ _ => Except.error (EngErr.hookFail 7))
        { model := MArg.handle (RModel.base "m"), rest := [] }
        { recursiveDepth := 0, maxRecursiveDepth := 10, isRecursiveCall := false,
          middlewares := [] } =
      (Except.error (EngErr.hookFail 7),
        { recursiveDepth := 0, maxRecursiveDepth := 10, isRecursiveCall := false,
          middlewares := [] },
        [Ev.executorRun (RModel.base "m"), Ev.hook "watch" HookName.onError]) := by
  have h := engine_error_path "openai"
    [{ name := "watch", onError := some (fun _ c => Except.ok c) }]
    (fun _ _ => Except.error (EngErr.hookFail 7))
    { model := MArg.handle (RModel.base "m"), rest := [] }
    { recursiveDepth := 0, maxRecursiveDepth := 10, isRecursiveCall := false,
      middlewares := [] }
    (EngErr.hookFail 7)
    { recursiveDepth := 0, maxRecursiveDepth := 10, isRecursiveCall := false,
      middlewares := [] }
    [Ev.executorRun (RModel.base "m")]
    { recursiveDepth := 0, maxRecursiveDepth := 10, isRecursiveCall := false,
      middlewares := [] }
    [Ev.hook "watch" HookName.onError]
    (by decide) (by decide)
  exact h.1

/-! ### C7: middleware application -/

theorem executorModels_catchPhase (sps : List EPlugin) (e : EngErr) (c : ECtx)
    (t : List Ev) :
    executorModels (catchPhase sps e c t).2.2 = executorModels t := by
  simp only [catchPhase]
  rcases hE : runErrorHooks sps e c with ⟨r, c2, t2⟩
  have h2 : executorModels t2 = [] := by
    have := allHooks_runErrorHooks sps e c
    rw [hE] at this
    exact executorModels_of_hooks _ this
  rcases r with _ | e2 <;> simp [executorModels_append, h2]

theorem executorModels_executeWithPlugins (providerId : String)
    (bp : List EPlugin) (ex : RModel → Params → Except EngErr Val)
    (prm : Params) (ctx : ECtx) :
    executorModels (executeWithPlugins providerId bp ex prm ctx).2.2 =
      executorModels (tryPhaseGen providerId (sortPlugins bp) ex prm ctx).2.2 := by
  simp only [executeWithPlugins]
  rcases h : tryPhaseGen providerId (sortPlugins bp) ex prm ctx with ⟨r, c, t⟩
  rcases r with e | v
  · simp [executorModels_catchPhase]
  · rfl

theorem executorModels_executeStreamWithPlugins (providerId : String)
    (bp : List EPlugin) (ex : RModel → Params → List String → Except EngErr Val)
    (prm : Params) (ctx : ECtx) :
    executorModels (executeStreamWithPlugins providerId bp ex prm ctx).2.2 =
      executorModels (tryPhaseStream providerId (sortPlugins bp) ex prm ctx).2.2 := by
  simp only [executeStreamWithPlugins]
  rcases h : tryPhaseStream providerId (sortPlugins bp) ex prm ctx with ⟨r, c, t⟩
  rcases r with e | v
  · simp [executorModels_catchPhase]
  · rfl

theorem executorModels_executeImageWithPlugins (providerId : String)
    (bp : List EPlugin) (ex : RModel → Params → Except EngErr Val)
    (prm : Params) (ctx : ECtx) :
    executorModels (executeImageWithPlugins providerId bp ex prm ctx).2.2 =
      executorModels (tryPhaseImage providerId (sortPlugins bp) ex prm ctx).2.2 := by
  simp only [executeImageWithPlugins]
  rcases h : tryPhaseImage providerId (sortPlugins bp) ex prm ctx with ⟨r, c, t⟩
  rcases r with e | v
  · simp [executorModels_catchPhase]
  · rfl

/-- C7 counterexample: in the streaming call shape with the model given as a
string identifier, a middleware registered during `configureContext` is NOT
applied — the executor receives the bare resolved handle even though the
context's middleware list is non-empty (the source guards the streaming
middleware step with `typeof model !== 'string'`).  This falsifies the claim
that every call shape wraps the resolved model whenever middlewares exist. -/
theorem middleware_stream_string_counterexample :
    executeStreamWithPlugins "openai"
        [{ name := "mw",
           configureContext :=
             some (fun c => Except.ok { c with middlewares := [5] }),
           resolveModel := some (fun _ _ => Except.ok (some (RModel.base "m"))) }]
        (fun _ _ _ => Except.ok (Val.leaf (Leaf.num 0)))
        { model := MArg.str "gpt", rest := [] }
        { recursiveDepth := 0, maxRecursiveDepth := 10, isRecursiveCall := false,
          middlewares := [] } =
      (Except.ok (Val.leaf (Leaf.num 0)),
       { recursiveDepth := 0, maxRecursiveDepth := 10, isRecursiveCall := false,
         middlewares := [5] },
       [Ev.hook "mw" HookName.configureContext, Ev.hook "mw" HookName.resolveModel,
        Ev.executorRun (RModel.base "m")]) ∧
    RModel.base "m" ≠ RModel.wrapped [5] (RModel.base "m") := by
  exact ⟨by decide, by decide⟩

/-- C7 (amended): when the request reaches the executor, the model handle it
receives is: in the non-streaming generate shape, the resolved model wrapped
with the context's middlewares (in registration order) whenever that list is
non-empty, regardless of whether the model arrived as a string or a handle;
in the streaming shape, wrapped only when the model arrived as an
already-resolved handle (a string-resolved model is passed unwrapped); and in
the image shape, never wrapped. -/
theorem middleware_application_by_shape (providerId : String)
    (bp : List EPlugin) (exG : RModel → Params → Except EngErr Val)
    (exS : RModel → Params → List String → Except EngErr Val)
    (prm : Params) (ctx : ECtx) (c0 : ECtx) (t0 : List Ev) (c1 : ECtx)
    (t1 : List Ev) (m : RModel) (tp : Params) (trT : List Ev)
    (hC : runConfigure (sortPlugins bp) ctx = (none, c0, t0))
    (hS : runStartHooks (sortPlugins bp) c0 = (none, c1, t1))
    (hT : runTransformParamsHooks (sortPlugins bp) prm c1 = (Except.ok tp, trT)) :
    (∀ mid tR,
      prm.model = MArg.str mid →
      runResolveFirst (sortPlugins bp) mid c1 = (Except.ok (some m), tR) →
      executorModels (executeWithPlugins providerId bp exG prm ctx).2.2 =
        [if c1.middlewares.isEmpty then m else RModel.wrapped c1.middlewares m] ∧
      executorModels (executeStreamWithPlugins providerId bp exS prm ctx).2.2 =
        [m] ∧
      executorModels (executeImageWithPlugins providerId bp exG prm ctx).2.2 =
        [m]) ∧
    (prm.model = MArg.handle m →
      executorModels (executeWithPlugins providerId bp exG prm ctx).2.2 =
        [if c1.middlewares.isEmpty then m else RModel.wrapped c1.middlewares m] ∧
      executorModels (executeStreamWithPlugins providerId bp exS prm ctx).2.2 =
        [if c1.middlewares.isEmpty then m else RModel.wrapped c1.middlewares m] ∧
      executorModels (executeImageWithPlugins providerId bp exG prm ctx).2.2 =
        [m]) := by
  have e0 : executorModels t0 = [] := by
    have := allHooks_runConfigure (sortPlugins bp) ctx
    rw [hC] at this
    exact executorModels_of_hooks _ this
  have e1 : executorModels t1 = [] := by
    have := allHooks_runStartHooks (sortPlugins bp) c0
    rw [hS] at this
    exact executorModels_of_hooks _ this
  constructor
  · intro mid tR hMo hR
    have eR : executorModels tR = [] := by
      have := allHooks_runResolveFirst (sortPlugins bp) mid c1
      rw [hR] at this
      exact executorModels_of_hooks _ this
    refine ⟨?_, ?_, ?_⟩
    · rw [executorModels_executeWithPlugins]
      simp only [tryPhaseGen, hC, hS, hMo, hR]
      rcases hP : postResolve (sortPlugins bp)
          (fun tp => exG (if c1.middlewares.isEmpty then m
            else RModel.wrapped c1.middlewares m) tp)
          (if c1.middlewares.isEmpty then m
            else RModel.wrapped c1.middlewares m) prm c1 with ⟨r2, c2, t2⟩
      have eP := executorModels_postResolve (sortPlugins bp)
          (fun tp => exG (if c1.middlewares.isEmpty then m
            else RModel.wrapped c1.middlewares m) tp)
          (if c1.middlewares.isEmpty then m
            else RModel.wrapped c1.middlewares m) prm c1 tp trT hT
      rw [hP] at eP
      simp [executorModels_append, e0, e1, eR, eP]
    · rw [executorModels_executeStreamWithPlugins]
      simp only [tryPhaseStream, hC, hS, hMo, hR]
      rcases hP : postResolve (sortPlugins bp)
          (fun tp => exS m tp (collectStreamTransforms (sortPlugins bp)))
          m prm c1 with ⟨r2, c2, t2⟩
      have eP := executorModels_postResolve (sortPlugins bp)
          (fun tp => exS m tp (collectStreamTransforms (sortPlugins bp)))
          m prm c1 tp trT hT
      rw [hP] at eP
      simp [executorModels_append, e0, e1, eR, eP]
    · rw [executorModels_executeImageWithPlugins]
      simp only [tryPhaseImage, hC, hS, hMo, hR]
      rcases hP : postResolve (sortPlugins bp) (fun tp => exG m tp) m prm c1
        with ⟨r2, c2, t2⟩
      have eP := executorModels_postResolve (sortPlugins bp)
        (fun tp => exG m tp) m prm c1 tp trT hT
      rw [hP] at eP
      simp [executorModels_append, e0, e1, eR, eP]
  · intro hMo
    refine ⟨?_, ?_, ?_⟩
    · rw [executorModels_executeWithPlugins]
      simp only [tryPhaseGen, hC, hS, hMo]
      rcases hP : postResolve (sortPlugins bp)
          (fun tp => exG (if c1.middlewares.isEmpty then m
            else RModel.wrapped c1.middlewares m) tp)
          (if c1.middlewares.isEmpty then m
            else RModel.wrapped c1.middlewares m) prm c1 with ⟨r2, c2, t2⟩
      have eP := executorModels_postResolve (sortPlugins bp)
          (fun tp => exG (if c1.middlewares.isEmpty then m
            else RModel.wrapped c1.middlewares m) tp)
          (if c1.middlewares.isEmpty then m
            else RModel.wrapped c1.middlewares m) prm c1 tp trT hT
      rw [hP] at eP
      simp [executorModels_append, e0, e1, eP]
    · rw [executorModels_executeStreamWithPlugins]
      simp only [tryPhaseStream, hC, hS, hMo]
      rcases hP : postResolve (sortPlugins bp)
          (fun tp => exS (if c1.middlewares.isEmpty then m
            else RModel.wrapped c1.middlewares m) tp
            (collectStreamTransforms (sortPlugins bp)))
          (if c1.middlewares.isEmpty then m
            else RModel.wrapped c1.middlewares m) prm c1 with ⟨r2, c2, t2⟩
      have eP := executorModels_postResolve (sortPlugins bp)
          (fun tp => exS (if c1.middlewares.isEmpty then m
            else RModel.wrapped c1.middlewares m) tp
            (collectStreamTransforms (sortPlugins bp)))
          (if c1.middlewares.isEmpty then m
            else RModel.wrapped c1.middlewares m) prm c1 tp trT hT
      rw [hP] at eP
      simp [executorModels_append, e0, e1, eP]
    · rw [executorModels_executeImageWithPlugins]
      simp only [tryPhaseImage, hC, hS, hMo]
      rcases hP : postResolve (sortPlugins bp) (fun tp => exG m tp) m prm c1
        with ⟨r2, c2, t2⟩
      have eP := executorModels_postResolve (sortPlugins bp)
        (fun tp => exG m tp) m prm c1 tp trT hT
      rw [hP] at eP
      simp [executorModels_append, e0, e1, eP]

/-- Witness for `middleware_application_by_shape`: one middleware-registering
resolver plugin, exercised in the string-model and handle-model cases. -/
theorem middleware_application_by_shape_witness :
    executorModels (executeWithPlugins "openai"
        [{ name := "mw",
           configureContext :=
             some (fun c => Except.ok { c with middlewares := [5] }),
           resolveModel := some (fun _ _ => Except.ok (some (RModel.base "m"))) }]
        (fun _ _ => Except.ok (Val.leaf (Leaf.num 0)))
        { model := MArg.str "gpt", rest := [] }
        { recursiveDepth := 0, maxRecursiveDepth := 10, isRecursiveCall := false,
          middlewares := [] }).2.2 =
      [RModel.wrapped [5] (RModel.base "m")] ∧
    executorModels (executeStreamWithPlugins "openai"
        [{ name := "mw",
           configureContext :=
             some (fun c => Except.ok { c with middlewares := [5] }),
           resolveModel := some (fun _ _ => Except.ok (some (RModel.base "m"))) }]
        (fun _ _ _ => Except.ok (Val.leaf (Leaf.num 0)))
        { model := MArg.str "gpt", rest := [] }
        { recursiveDepth := 0, maxRecursiveDepth := 10, isRecursiveCall := false,
          middlewares := [] }).2.2 = [RModel.base "m"] := by
  have h := middleware_application_by_shape "openai"
    [{ name := "mw",
       configureContext := some (fun c => Except.ok { c with middlewares := [5] }),
       resolveModel := some (fun _ _ => Except.ok (some (RModel.base "m"))) }]
    (fun _ _ => Except.ok (Val.leaf (Leaf.num 0)))
    (fun _ _ _ => Except.ok (Val.leaf (Leaf.num 0)))
    { model := MArg.str "gpt", rest := [] }
    { recursiveDepth := 0, maxRecursiveDepth := 10, isRecursiveCall := false,
      middlewares := [] }
    { recursiveDepth := 0, maxRecursiveDepth := 10, isRecursiveCall := false,
      middlewares := [5] }
    [Ev.hook "mw" HookName.configureContext]
    { recursiveDepth := 0, maxRecursiveDepth := 10, isRecursiveCall := false,
      middlewares := [5] }
    [] (RModel.base "m")
    { model := MArg.str "gpt", rest := [] } []
    (by decide) (by decide) (by decide)
  obtain ⟨h1, h2, h3⟩ := h.1 "gpt" [Ev.hook "mw" HookName.resolveModel]
    (by decide) (by decide)
  constructor
  · rw [h1]
    decide
  · exact h2

/-! ## createPromptToolUsePlugin.transformParams (C10)

`StreamTextParams` carries a `system` prompt, an optional tool set and other
fields that the spread keeps verbatim (collapsed into `restTag`).  A tool is
"provider-defined" when `tool.type === 'provider'`. -/

structure ToolDef where
  ttype : String
deriving DecidableEq, Repr

structure PTParams where
  system : Option String := none
  tools : Option (List (String × ToolDef)) := none
  restTag : Nat := 0
deriving DecidableEq, Repr

structure PTCtx where
  isRecursiveCall : Bool := false
  mcpTools : Option (List (String × ToolDef)) := none
  originalParams : Option PTParams := none
deriving DecidableEq, Repr

/-- The plugin's `transformParams`, parameterized (as the factory is) by the
`enabled` flag and the `buildSystemPrompt` configuration function. -/
def ptTransformParams (enabled : Bool)
    (buildSystemPrompt : String → List (String × ToolDef) → String)
    (params : PTParams) (ctx : PTCtx) : PTParams × PTCtx :=
  if !enabled then (params, ctx)
  else
    match params.tools with
    | none => (params, ctx)
    | some tools =>
      let providerDefinedTools := tools.filter (fun kv => kv.2.ttype == "provider")
      let promptTools := tools.filter (fun kv => kv.2.ttype != "provider")
      let ctx1 := if promptTools.isEmpty then ctx
                  else { ctx with mcpTools := some promptTools }
      if ctx.isRecursiveCall then
        let tp := { params with
          tools := if providerDefinedTools.isEmpty then none
                   else some providerDefinedTools }
        (tp, { ctx1 with originalParams := some tp })
      else
        let userSystemPrompt := params.system.getD ""
        let systemPrompt := buildSystemPrompt userSystemPrompt promptTools
        let tp := { params with
          system := if systemPrompt.isEmpty then params.system else some systemPrompt
          tools := if providerDefinedTools.isEmpty then none
                   else some providerDefinedTools }
        (tp, { ctx1 with originalParams := some tp })

/-- C10: on a recursive call (`isRecursiveCall = true`) the plugin's
`transformParams` leaves the system prompt untouched (it is not rebuilt, so
the tool catalogue injected by the first pass is never duplicated), while it
still separates out the non-provider tools: the returned `tools` keep only
the provider-defined ones (or are dropped entirely), and when any prompt-mode
tools exist they are stored on `context.mcpTools`. -/
theorem ptTransformParams_recursive_no_rebuild (enabled : Bool)
    (bsp : String → List (String × ToolDef) → String) (params : PTParams)
    (ctx : PTCtx) (h : ctx.isRecursiveCall = true) :
    ((ptTransformParams enabled bsp params ctx).1.system = params.system) ∧
    (∀ tools, params.tools = some tools → enabled = true →
      (ptTransformParams enabled bsp params ctx).1.tools =
        (if (tools.filter (fun kv => kv.2.ttype == "provider")).isEmpty then none
         else some (tools.filter (fun kv => kv.2.ttype == "provider"))) ∧
      ((tools.filter (fun kv => kv.2.ttype != "provider")).isEmpty = false →
        (ptTransformParams enabled bsp params ctx).2.mcpTools =
          some (tools.filter (fun kv => kv.2.ttype != "provider")))) := by
  constructor
  · rcases he : enabled with _ | _
    · simp [ptTransformParams]
    · rcases ht : params.tools with _ | tools
      · simp [ptTransformParams, ht]
      · simp [ptTransformParams, ht, h]
  · intro tools ht he
    subst he
    constructor
    · simp [ptTransformParams, ht, h]
    · intro hne
      simp [ptTransformParams, ht, h, hne]

/-- Witness for `ptTransformParams_recursive_no_rebuild`: a recursive-call
context with one provider tool and one prompt tool. -/
theorem ptTransformParams_recursive_no_rebuild_witness :
    ((ptTransformParams true (fun s _ => s ++ "catalogue")
        { system := some "sys", tools := some [("a", { ttype := "provider" }),
                                               ("b", { ttype := "function" })] }
        { isRecursiveCall := true }).1.system = some "sys") ∧
    ((ptTransformParams true (fun s _ => s ++ "catalogue")
        { system := some "sys", tools := some [("a", { ttype := "provider" }),
                                               ("b", { ttype := "function" })] }
        { isRecursiveCall := true }).2.mcpTools =
      some [("b", { ttype := "function" })]) := by
  have h := ptTransformParams_recursive_no_rebuild true (fun s _ => s ++ "catalogue")
    { system := some "sys", tools := some [("a", { ttype := "provider" }),
                                           ("b", { ttype := "function" })] }
    { isRecursiveCall := true } (by decide)
  refine ⟨h.1, ?_⟩
  have h2 := (h.2 [("a", { ttype := "provider" }), ("b", { ttype := "function" })]
    (by decide) (by decide)).2 (by decide)
  rw [h2]
  decide

/-! ## Tag Extractor (C4)

The `tagExtraction` module itself is not among the provided sources (only its
call sites in the prompt-tool-use plugin are), so the extractor is modelled
from the spec, §4.5: keep a working buffer; on each fragment, append it;
repeatedly scan for the next occurrence of the expected tag (opening when
outside, closing when inside); emit everything before the tag boundary as a
fragment tagged `isTagContent = insideTag`; flip `insideTag` and consume the
tag token; when no further boundary is found, retain the unconsumed remainder
for the next call; on teardown, flush any still-buffered non-tag content. -/

structure Frag where
  content : List Char
  isTagContent : Bool
deriving DecidableEq, Repr

structure TagState where
  buffer : List Char
  insideTag : Bool
deriving DecidableEq, Repr

structure TagConfig where
  openingTag : List Char
  closingTag : List Char
  separator : List Char
deriving DecidableEq, Repr

/-- `TOOL_USE_TAG_CONFIG` of the prompt-tool-use plugin. -/
def toolUseTagConfig : TagConfig :=
  { openingTag := "<tool_use>".toList
    closingTag := "</tool_use>".toList
    separator := "\n".toList }

/-- Modelled from the spec: scan the buffer for the first occurrence of the
tag token, returning the text before it and the text after it (the token
itself is consumed). -/
def splitOnTag (tag : List Char) : List Char → Option (List Char × List Char)
  | [] => none
  | ch :: rest =>
    if !tag.isEmpty && tag.isPrefixOf (ch :: rest) then
      some ([], (ch :: rest).drop tag.length)
    else
      match splitOnTag tag rest with
      | some (pre, after) => some (ch :: pre, after)
      | none => none

/-- Modelled from the spec: the repeated scan-emit-flip loop over the working
buffer.  The fuel argument only serves Lean's termination; `buf.length` is
always sufficient, and every exported definition instantiates it so
(`pumpRun` below). -/
def pump (opening closing : List Char) : Nat → Bool → List Char →
    List Frag × TagState
  | 0, inside, buf => ([], { buffer := buf, insideTag := inside })
  | fuel + 1, inside, buf =>
    match splitOnTag (if inside then closing else opening) buf with
    | none => ([], { buffer := buf, insideTag := inside })
    | some (pre, rest) =>
      let (fs, st) := pump opening closing fuel (!inside) rest
      ({ content := pre, isTagContent := inside } :: fs, st)

def pumpRun (opening closing : List Char) (inside : Bool) (buf : List Char) :
    List Frag × TagState :=
  pump opening closing buf.length inside buf

/-- `TagExtractor.processText`: append the fragment to the buffer and pump. -/
def processText (cfg : TagConfig) (st : TagState) (frag : List Char) :
    List Frag × TagState :=
  pumpRun cfg.openingTag cfg.closingTag st.insideTag (st.buffer ++ frag)

def initTagState : TagState := { buffer := [], insideTag := false }

/-- Feeding a stream of fragments through the extractor. -/
def processAll (cfg : TagConfig) (st : TagState) :
    List (List Char) → List Frag × TagState
  | [] => ([], st)
  | f :: fs =>
    let (e1, st1) := processText cfg st f
    let (e2, st2) := processAll cfg st1 fs
    (e1 ++ e2, st2)

/-- Stream teardown: flush any still-buffered content as a non-tag fragment. -/
def finalizeTag (st : TagState) : List Frag :=
  if st.buffer.isEmpty then [] else [{ content := st.buffer, isTagContent := false }]

def joinFrags (l : List (List Char)) : List Char :=
  List.foldr (fun x acc => x ++ acc) [] l

def outsideConcat (fs : List Frag) : List Char :=
  List.foldr (fun f acc => f.content ++ acc) []
    (fs.filter (fun f => !f.isTagContent))

def allConcat (fs : List Frag) : List Char :=
  List.foldr (fun f acc => f.content ++ acc) [] fs

/-- The input with every consumed tag token deleted — the spec-side
comparison point for the lossless-reconstruction claim. -/
def stripTags (opening closing : List Char) : Nat → Bool → List Char → List Char
  | 0, _, buf => buf
  | fuel + 1, inside, buf =>
    match splitOnTag (if inside then closing else opening) buf with
    | none => buf
    | some (pre, rest) => pre ++ stripTags opening closing fuel (!inside) rest

def stripTagsRun (opening closing : List Char) (inside : Bool)
    (buf : List Char) : List Char :=
  stripTags opening closing buf.length inside buf

/-! ### Prefix facts -/

theorem isPrefixOf_length_le {tag buf : List Char}
    (h : tag.isPrefixOf buf = true) : tag.length ≤ buf.length := by
  induction tag generalizing buf with
  | nil => simp
  | cons a as ih =>
    rcases buf with _ | ⟨b, bs⟩
    · simp [List.isPrefixOf] at h
    · simp only [List.isPrefixOf, Bool.and_eq_true] at h
      simpa using ih h.2

theorem isPrefixOf_decompose {tag buf : List Char}
    (h : tag.isPrefixOf buf = true) : buf = tag ++ buf.drop tag.length := by
  induction tag generalizing buf with
  | nil => simp
  | cons a as ih =>
    rcases buf with _ | ⟨b, bs⟩
    · simp [List.isPrefixOf] at h
    · simp only [List.isPrefixOf, Bool.and_eq_true, beq_iff_eq] at h
      obtain ⟨rfl, h2⟩ := h
      simpa using ih h2

theorem isPrefixOf_append_right {tag buf y : List Char}
    (h : tag.isPrefixOf buf = true) : tag.isPrefixOf (buf ++ y) = true := by
  induction tag generalizing buf with
  | nil => simp
  | cons a as ih =>
    rcases buf with _ | ⟨b, bs⟩
    · simp [List.isPrefixOf] at h
    · simp only [List.isPrefixOf, Bool.and_eq_true] at h ⊢
      exact ⟨h.1, ih h.2⟩

theorem drop_append_of_le {n : Nat} {a b : List Char} (h : n ≤ a.length) :
    (a ++ b).drop n = a.drop n ++ b := by
  induction a generalizing n with
  | nil =>
    have : n = 0 := Nat.le_zero.mp h
    subst this
    rfl
  | cons x xs ih =>
    rcases n with _ | n
    · rfl
    · simpa using ih (Nat.succ_le_succ_iff.mp h)

/-! ### splitOnTag facts -/

theorem splitOnTag_some_decompose {tag buf pre after : List Char}
    (h : splitOnTag tag buf = some (pre, after)) :
    buf = pre ++ tag ++ after ∧ after.length < buf.length := by
  induction buf generalizing pre with
  | nil => simp [splitOnTag] at h
  | cons ch rest ih =>
    by_cases hp : (!tag.isEmpty && tag.isPrefixOf (ch :: rest)) = true
    · rw [splitOnTag, if_pos hp] at h
      simp only [Option.some.injEq, Prod.mk.injEq] at h
      obtain ⟨h1, h2⟩ := h
      subst h1
      rw [Bool.and_eq_true] at hp
      have hd := isPrefixOf_decompose hp.2
      have hl : tag.length ≤ (ch :: rest).length := isPrefixOf_length_le hp.2
      have htpos : 0 < tag.length := by
        rcases tag with _ | ⟨t, ts⟩
        · simp at hp
        · simp
      constructor
      · rw [← h2]
        simpa using hd
      · rw [← h2]
        simp only [List.length_drop]
        omega
    · rw [splitOnTag, if_neg hp] at h
      rcases hs : splitOnTag tag rest with _ | ⟨pre', after'⟩
      · rw [hs] at h
        simp at h
      · rw [hs] at h
        simp only [Option.some.injEq, Prod.mk.injEq] at h
        obtain ⟨h1, h2⟩ := h
        obtain ⟨hb, hlen⟩ := @ih pre' (by rw [hs, h2])
        constructor
        · rw [← h1]
          simp [hb]
        · simp only [List.length_cons]
          omega

theorem isPrefixOf_false_append {tag buf y : List Char}
    (h : tag.isPrefixOf buf = false) (hl : tag.length ≤ buf.length) :
    tag.isPrefixOf (buf ++ y) = false := by
  induction tag generalizing buf with
  | nil => simp [List.isPrefixOf] at h
  | cons a as ih =>
    rcases buf with _ | ⟨b, bs⟩
    · simp at hl
    · simp only [List.isPrefixOf, Bool.and_eq_false_iff] at h
      rcases h with h | h
      · simp [List.cons_append, List.isPrefixOf, h]
      · simp only [List.cons_append, List.isPrefixOf, Bool.and_eq_false_iff]
        right
        exact ih h (by simpa using hl)

theorem splitOnTag_append_some {tag buf pre after y : List Char}
    (h : splitOnTag tag buf = some (pre, after)) :
    splitOnTag tag (buf ++ y) = some (pre, after ++ y) := by
  induction buf generalizing pre with
  | nil => simp [splitOnTag] at h
  | cons ch rest ih =>
    by_cases hp : (!tag.isEmpty && tag.isPrefixOf (ch :: rest)) = true
    · rw [splitOnTag, if_pos hp] at h
      simp only [Option.some.injEq, Prod.mk.injEq] at h
      obtain ⟨h1, h2⟩ := h
      subst h1
      rw [Bool.and_eq_true] at hp
      have hl : tag.length ≤ (ch :: rest).length := isPrefixOf_length_le hp.2
      have hp' : (!tag.isEmpty && tag.isPrefixOf ((ch :: rest) ++ y)) = true := by
        rw [Bool.and_eq_true]
        exact ⟨hp.1, isPrefixOf_append_right hp.2⟩
      rw [List.cons_append, splitOnTag]
      rw [List.cons_append] at hp'
      rw [if_pos hp']
      rw [← List.cons_append, drop_append_of_le hl, h2]
    · rw [splitOnTag, if_neg hp] at h
      rcases hs : splitOnTag tag rest with _ | ⟨pre', after'⟩
      · rw [hs] at h
        simp at h
      · rw [hs] at h
        simp only [Option.some.injEq, Prod.mk.injEq] at h
        obtain ⟨h1, h2⟩ := h
        have hlen : tag.length ≤ (ch :: rest).length := by
          obtain ⟨hb, -⟩ := splitOnTag_some_decompose hs
          subst hb
          simp only [List.length_cons, List.length_append]
          omega
        have hp2 : (!tag.isEmpty && tag.isPrefixOf ((ch :: rest) ++ y)) = false := by
          rcases hf : (!tag.isEmpty && tag.isPrefixOf (ch :: rest)) with _ | _
          · rw [Bool.and_eq_false_iff] at hf
            rcases hf with hf | hf
            · rw [Bool.and_eq_false_iff]
              exact Or.inl hf
            · rw [Bool.and_eq_false_iff]
              exact Or.inr (isPrefixOf_false_append hf hlen)
          · exact absurd hf hp
        rw [List.cons_append, splitOnTag]
        rw [List.cons_append] at hp2
        rw [if_neg (by simp [hp2])]
        rw [@ih pre' (by rw [hs, h2]), ← h1]

/-! ### Fuel elimination for `pump` and `stripTags` -/

theorem pump_fuel_eq (o c : List Char) :
    ∀ (n f1 f2 : Nat) (inside : Bool) (buf : List Char),
      buf.length ≤ n → buf.length ≤ f1 → buf.length ≤ f2 →
      pump o c f1 inside buf = pump o c f2 inside buf := by
  intro n
  induction n with
  | zero =>
    intro f1 f2 inside buf hn h1 h2
    have hb : buf = [] := List.length_eq_zero.mp (Nat.le_zero.mp hn)
    subst hb
    rcases f1 with _ | f1 <;> rcases f2 with _ | f2 <;> simp [pump, splitOnTag]
  | succ n ih =>
    intro f1 f2 inside buf hn h1 h2
    rcases f1 with _ | f1
    · have hb : buf = [] := List.length_eq_zero.mp (Nat.le_zero.mp h1)
      subst hb
      rcases f2 with _ | f2 <;> simp [pump, splitOnTag]
    · rcases f2 with _ | f2
      · have hb : buf = [] := List.length_eq_zero.mp (Nat.le_zero.mp h2)
        subst hb
        simp [pump, splitOnTag]
      · rcases hs : splitOnTag (if inside then c else o) buf with _ | ⟨pre, rest⟩
        · simp [pump, hs]
        · have hlt := (splitOnTag_some_decompose hs).2
          simp only [pump, hs]
          rw [ih f1 f2 (!inside) rest (by omega) (by omega) (by omega)]

/-- The single recursion equation for the fuel-free view of the pump. -/
theorem pumpRun_unfold (o c : List Char) (inside : Bool) (buf : List Char) :
    pumpRun o c inside buf =
      match splitOnTag (if inside then c else o) buf with
      | none => ([], { buffer := buf, insideTag := inside })
      | some (pre, rest) =>
        ({ content := pre, isTagContent := inside } ::
            (pumpRun o c (!inside) rest).1,
          (pumpRun o c (!inside) rest).2) := by
  rcases hb : buf with _ | ⟨ch, rest0⟩
  · simp [pumpRun, pump, splitOnTag]
  · show pump o c (ch :: rest0).length inside (ch :: rest0) = _
    rcases hs : splitOnTag (if inside then c else o) (ch :: rest0)
      with _ | ⟨pre, rest⟩
    · simp [pump, hs]
    · have hlt := (splitOnTag_some_decompose hs).2
      simp only [List.length_cons] at hlt
      simp only [List.length_cons, pump, hs]
      rw [pump_fuel_eq o c rest.length rest0.length rest.length (!inside) rest
        (Nat.le_refl _) (by omega) (Nat.le_refl _)]
      rfl

theorem stripTags_fuel_eq (o c : List Char) :
    ∀ (n f1 f2 : Nat) (inside : Bool) (buf : List Char),
      buf.length ≤ n → buf.length ≤ f1 → buf.length ≤ f2 →
      stripTags o c f1 inside buf = stripTags o c f2 inside buf := by
  intro n
  induction n with
  | zero =>
    intro f1 f2 inside buf hn h1 h2
    have hb : buf = [] := List.length_eq_zero.mp (Nat.le_zero.mp hn)
    subst hb
    rcases f1 with _ | f1 <;> rcases f2 with _ | f2 <;> simp [stripTags, splitOnTag]
  | succ n ih =>
    intro f1 f2 inside buf hn h1 h2
    rcases f1 with _ | f1
    · have hb : buf = [] := List.length_eq_zero.mp (Nat.le_zero.mp h1)
      subst hb
      rcases f2 with _ | f2 <;> simp [stripTags, splitOnTag]
    · rcases f2 with _ | f2
      · have hb : buf = [] := List.length_eq_zero.mp (Nat.le_zero.mp h2)
        subst hb
        simp [stripTags, splitOnTag]
      · rcases hs : splitOnTag (if inside then c else o) buf with _ | ⟨pre, rest⟩
        · simp [stripTags, hs]
        · have hlt := (splitOnTag_some_decompose hs).2
          simp only [stripTags, hs]
          rw [ih f1 f2 (!inside) rest (by omega) (by omega) (by omega)]

theorem stripTagsRun_unfold (o c : List Char) (inside : Bool) (buf : List Char) :
    stripTagsRun o c inside buf =
      match splitOnTag (if inside then c else o) buf with
      | none => buf
      | some (pre, rest) => pre ++ stripTagsRun o c (!inside) rest := by
  rcases hb : buf with _ | ⟨ch, rest0⟩
  · simp [stripTagsRun, stripTags, splitOnTag]
  · show stripTags o c (ch :: rest0).length inside (ch :: rest0) = _
    rcases hs : splitOnTag (if inside then c else o) (ch :: rest0)
      with _ | ⟨pre, rest⟩
    · simp [stripTags, hs]
    · have hlt := (splitOnTag_some_decompose hs).2
      simp only [List.length_cons] at hlt
      simp only [List.length_cons, stripTags, hs]
      rw [stripTags_fuel_eq o c rest.length rest0.length rest.length (!inside) rest
        (Nat.le_refl _) (by omega) (Nat.le_refl _)]
      rfl

/-! ### The incremental pump is a stream homomorphism -/

theorem pumpRun_append (o c : List Char) :
    ∀ (n : Nat) (buf y : List Char) (inside : Bool), buf.length ≤ n →
      pumpRun o c inside (buf ++ y) =
        ((pumpRun o c inside buf).1 ++
          (pumpRun o c (pumpRun o c inside buf).2.insideTag
            ((pumpRun o c inside buf).2.buffer ++ y)).1,
         (pumpRun o c (pumpRun o c inside buf).2.insideTag
            ((pumpRun o c inside buf).2.buffer ++ y)).2) := by
  intro n
  induction n with
  | zero =>
    intro buf y inside hn
    have hb : buf = [] := List.length_eq_zero.mp (Nat.le_zero.mp hn)
    subst hb
    rw [pumpRun_unfold o c inside []]
    simp [splitOnTag]
  | succ n ih =>
    intro buf y inside hn
    rcases hs : splitOnTag (if inside then c else o) buf with _ | ⟨pre, rest⟩
    · rw [pumpRun_unfold o c inside buf, hs]
      simp
    · have hlt := (splitOnTag_some_decompose hs).2
      rw [pumpRun_unfold o c inside (buf ++ y), splitOnTag_append_some hs,
        pumpRun_unfold o c inside buf, hs]
      simp only []
      rw [ih rest y (!inside) (by omega)]
      simp

/-- Processing the state's buffer alone never emits and never moves the state:
the retained buffer contains no further occurrence of the expected tag. -/
theorem pumpRun_final_stable (o c : List Char) :
    ∀ (n : Nat) (buf : List Char) (inside : Bool), buf.length ≤ n →
      splitOnTag (if (pumpRun o c inside buf).2.insideTag then c else o)
        (pumpRun o c inside buf).2.buffer = none := by
  intro n
  induction n with
  | zero =>
    intro buf inside hn
    have hb : buf = [] := List.length_eq_zero.mp (Nat.le_zero.mp hn)
    subst hb
    rw [pumpRun_unfold]
    simp [splitOnTag]
  | succ n ih =>
    intro buf inside hn
    rcases hs : splitOnTag (if inside then c else o) buf with _ | ⟨pre, rest⟩
    · rw [pumpRun_unfold o c inside buf, hs]
      simpa using hs
    · have hlt := (splitOnTag_some_decompose hs).2
      rw [pumpRun_unfold o c inside buf, hs]
      simpa using ih rest (!inside) (by omega)

/-- Fragmented feeding equals single-shot feeding, fragment lists and final
state included, from any reachable state. -/
theorem processAll_eq_single (cfg : TagConfig) :
    ∀ (fs : List (List Char)) (st : TagState),
      splitOnTag (if st.insideTag then cfg.closingTag else cfg.openingTag)
        st.buffer = none →
      processAll cfg st fs = processText cfg st (joinFrags fs) := by
  intro fs
  induction fs with
  | nil =>
    intro st hstable
    show ([], st) = pumpRun _ _ st.insideTag (st.buffer ++ [])
    rw [List.append_nil, pumpRun_unfold, hstable]
  | cons f rest ih =>
    intro st hstable
    rcases h1 : processText cfg st f with ⟨e1, st1⟩
    have hst1 : splitOnTag (if st1.insideTag then cfg.closingTag
        else cfg.openingTag) st1.buffer = none := by
      have h0 := pumpRun_final_stable cfg.openingTag cfg.closingTag
        (st.buffer ++ f).length (st.buffer ++ f) st.insideTag (Nat.le_refl _)
      have h1' : pumpRun cfg.openingTag cfg.closingTag st.insideTag
          (st.buffer ++ f) = (e1, st1) := h1
      rw [h1'] at h0
      exact h0
    have hrec := ih st1 hst1
    simp only [processAll, h1, hrec]
    show _ = pumpRun cfg.openingTag cfg.closingTag st.insideTag
      (st.buffer ++ joinFrags (f :: rest))
    have hj : st.buffer ++ joinFrags (f :: rest) =
        (st.buffer ++ f) ++ joinFrags rest := by
      show st.buffer ++ (f ++ joinFrags rest) = _
      rw [List.append_assoc]
    rw [hj, pumpRun_append cfg.openingTag cfg.closingTag
      (st.buffer ++ f).length (st.buffer ++ f) (joinFrags rest) st.insideTag
      (Nat.le_refl _)]
    have h1'' : pumpRun cfg.openingTag cfg.closingTag st.insideTag
        (st.buffer ++ f) = (e1, st1) := h1
    rw [h1'']
    rfl

theorem allConcat_append (a b : List Frag) :
    allConcat (a ++ b) = allConcat a ++ allConcat b := by
  induction a with
  | nil => rfl
  | cons f rest ih => simp [allConcat] at ih ⊢; simp [ih]

/-- The emissions plus the retained buffer reconstruct the input with the
consumed tag tokens deleted. -/
theorem allConcat_pumpRun (o c : List Char) :
    ∀ (n : Nat) (buf : List Char) (inside : Bool), buf.length ≤ n →
      allConcat (pumpRun o c inside buf).1 ++ (pumpRun o c inside buf).2.buffer =
        stripTagsRun o c inside buf := by
  intro n
  induction n with
  | zero =>
    intro buf inside hn
    have hb : buf = [] := List.length_eq_zero.mp (Nat.le_zero.mp hn)
    subst hb
    rw [pumpRun_unfold, stripTagsRun_unfold]
    simp [splitOnTag, allConcat]
  | succ n ih =>
    intro buf inside hn
    rcases hs : splitOnTag (if inside then c else o) buf with _ | ⟨pre, rest⟩
    · rw [pumpRun_unfold o c inside buf, hs, stripTagsRun_unfold o c inside buf, hs]
      simp [allConcat]
    · have hlt := (splitOnTag_some_decompose hs).2
      rw [pumpRun_unfold o c inside buf, hs, stripTagsRun_unfold o c inside buf, hs]
      simp only [allConcat, List.foldr_cons]
      rw [← allConcat]
      rw [List.append_assoc, ih rest (!inside) (by omega)]

/-- C4 counterexample: with the tool-use tag pair, feeding the single
fragment `"a<tool_use>b</tool_use>c"` emits outside `"a"`, inside `"b"`,
outside `"c"` (plus the teardown flush) — the concatenation of all emitted
fragments is `"abc"`, not the original input: the tag tokens are consumed,
so the claimed exact reconstruction fails. -/
theorem tag_extractor_reconstruction_counterexample :
    allConcat ((processAll toolUseTagConfig
        initTagState ["a<tool_use>b</tool_use>c".toList]).1 ++
      finalizeTag (processAll toolUseTagConfig
        initTagState ["a<tool_use>b</tool_use>c".toList]).2) =
      "abc".toList ∧
    "abc".toList ≠ "a<tool_use>b</tool_use>c".toList := by
  exact ⟨by decide, by decide⟩

/-- C4 (amended): (i) feeding the Tag Extractor the whole text in one
fragment or split into arbitrarily many fragments (including splits inside a
tag token) produces the same emitted fragments and the same final state — in
particular the same concatenation of outside fragments; (ii) the
concatenation of all emitted outside and inside fragments in emission order,
including the teardown flush, reconstructs the original input with the
consumed opening/closing tag tokens deleted (`stripTagsRun`) — exact
reconstruction therefore holds exactly for inputs in which no tag token is
consumed. -/
theorem tag_extractor_split_invariance_and_reconstruction (cfg : TagConfig)
    (fs : List (List Char)) :
    processAll cfg initTagState fs =
      processAll cfg initTagState [joinFrags fs] ∧
    allConcat ((processAll cfg initTagState fs).1 ++
        finalizeTag (processAll cfg initTagState fs).2) =
      stripTagsRun cfg.openingTag cfg.closingTag false (joinFrags fs) := by
  have hinit : splitOnTag (if initTagState.insideTag then cfg.closingTag
      else cfg.openingTag) initTagState.buffer = none := by
    simp [initTagState, splitOnTag]
  have h1 := processAll_eq_single cfg fs initTagState hinit
  have h2 : processAll cfg initTagState [joinFrags fs] =
      processText cfg initTagState (joinFrags fs) := by
    show (let (e1, st1) := processText cfg initTagState (joinFrags fs)
          let (e2, st2) := processAll cfg st1 []
          (e1 ++ e2, st2)) = _
    rcases hp : processText cfg initTagState (joinFrags fs) with ⟨e1, st1⟩
    simp [processAll]
  constructor
  · rw [h1, h2]
  · rw [h1]
    have hpt : processText cfg initTagState (joinFrags fs) =
        pumpRun cfg.openingTag cfg.closingTag false (joinFrags fs) := by
      show pumpRun cfg.openingTag cfg.closingTag false ([] ++ joinFrags fs) = _
      rw [List.nil_append]
    rw [hpt]
    rcases hq : pumpRun cfg.openingTag cfg.closingTag false (joinFrags fs)
      with ⟨e, st⟩
    have hr := allConcat_pumpRun cfg.openingTag cfg.closingTag
      (joinFrags fs).length (joinFrags fs) false (Nat.le_refl _)
    rw [hq] at hr
    simp only at hr ⊢
    rw [allConcat_append]
    rcases hb : st.buffer with _ | ⟨bc, bs⟩
    · simp only [finalizeTag, hb]
      simp only [List.isEmpty_nil, if_pos]
      rw [← hr, hb]
      simp [allConcat]
    · simp only [finalizeTag, hb]
      simp only [List.isEmpty_cons, if_neg]
      rw [← hr, hb]
      simp [allConcat]

/-! ## The prompt-tool-use stream transform (C2, C3, C6)

Models the `TransformStream` built by `createPromptToolUsePlugin`'s
`transformStream` together with `StreamEventManager.sendStepFinishEvent`,
`handleRecursiveCall` and `pipeRecursiveStream`.  A stream is the list of its
chunks; the provider side (the raw streams produced by the executor for the
top-level call and each recursive follow-up call) is an oracle indexed by the
call number; the recursive call re-enters the engine, whose transform (a
fresh instance sharing the same context) is applied to the next provider
stream.  `parseToolUse` and the `ToolExecutor` (whose module is not among the
provided sources) are configuration parameters, as they are in the plugin. -/

inductive ToolStatus where
  | pending
  | executed
  | errored
deriving DecidableEq, Repr

structure ToolUse where
  id : String
  toolName : String
  arguments : String
  status : ToolStatus
deriving DecidableEq, Repr

inductive Chunk where
  | textStart (id : Nat)
  | textDelta (id : Nat) (text : List Char)
  | textEnd (id : Nat)
  | startStep
  | finishStep (finishReason : String) (usage : Option Usage)
  | finishEv (finishReason : String) (totalUsage : Option Usage)
  | startEv
  | toolEv (n : Nat)
  | otherEv (n : Nat)
deriving DecidableEq, Repr

/-- The context fields the transform reads and writes. -/
structure SCtx where
  accumulatedUsage : Option Usage
  hasExecutedToolsInCurrentStep : Bool
  mcpTools : Option (List String)
deriving DecidableEq, Repr

/-- The per-transform-instance state (`textBuffer`, the tag extractor, the
held `text-start` and the `hasStartedText` flag). -/
structure TState where
  textBuffer : List Char
  tagState : TagState
  pendingTextStart : Option Chunk
  hasStartedText : Bool
deriving DecidableEq, Repr

def initTState : TState :=
  { textBuffer := [], tagState := initTagState, pendingTextStart := none,
    hasStartedText := false }

structure StreamCfg where
  parse : List Char → List ToolUse
  execToolsEmits : List ToolUse → List Chunk
  provider : Nat → List Chunk

inductive StreamErr where
  | depthExceeded
deriving DecidableEq, Repr

/-- The result of running a transform over a chunk list: the final context,
the final instance state, the emitted chunks and the next unused call index. -/
structure LoopRes where
  ctx : SCtx
  st : TState
  out : List Chunk
  callIdx : Nat
deriving DecidableEq, Repr

/-- `if (chunk.usage && context.accumulatedUsage) accumulateUsage(...)`. -/
def accUsageCtx (ctx : SCtx) (u : Option Usage) : SCtx :=
  match u, ctx.accumulatedUsage with
  | some uu, some acc => { ctx with accumulatedUsage := some (accU acc uu) }
  | _, _ => ctx

/-- `StreamEventManager.pipeRecursiveStream`: forward the nested stream's
chunks, skipping its `start` events and stopping at its `finish` event. -/
def pipeRecursive : List Chunk → List Chunk
  | [] => []
  | Chunk.startEv :: rest => pipeRecursive rest
  | Chunk.finishEv _ _ :: _ => []
  | ch :: rest => ch :: pipeRecursive rest

/-- The text-delta handler's inner loop: for each extracted non-tag non-empty
fragment, flush the held `text-start` (at most once) and forward a filtered
delta. -/
def flushDeltas (i : Nat) : List Frag → Option Chunk → Bool →
    List Chunk × Option Chunk × Bool
  | [], pend, started => ([], pend, started)
  | f :: rest, pend, started =>
    if !f.isTagContent && !f.content.isEmpty then
      match started, pend with
      | false, some p =>
        let (out, pe, sd) := flushDeltas i rest none true
        (p :: Chunk.textDelta i f.content :: out, pe, sd)
      | _, _ =>
        let (out, pe, sd) := flushDeltas i rest pend started
        (Chunk.textDelta i f.content :: out, pe, sd)
    else flushDeltas i rest pend started

def emitThen (out : List Chunk) (r : Except StreamErr LoopRes) :
    Except StreamErr LoopRes :=
  r.map (fun x => { x with out := out ++ x.out })

/-- One transform instance processing its input chunks.  `nested` runs the
bounded recursive call issued from the tool branch of the finish-step
handler (it is the engine re-entry, supplied by `runloop` below). -/
def loopWith (cfg : StreamCfg)
    (nested : SCtx → Nat → Except StreamErr LoopRes) :
    SCtx → TState → Nat → List Chunk → Except StreamErr LoopRes
  | ctx, st, callIdx, [] => Except.ok { ctx := ctx, st := st, out := [], callIdx := callIdx }
  | ctx, st, callIdx, Chunk.textStart i :: rest =>
    loopWith cfg nested ctx
      { st with pendingTextStart := some (Chunk.textStart i) } callIdx rest
  | ctx, st, callIdx, Chunk.textDelta i t :: rest =>
    let (frags, tg) := processText toolUseTagConfig st.tagState t
    let (out1, pend1, started1) :=
      flushDeltas i frags st.pendingTextStart st.hasStartedText
    emitThen out1 (loopWith cfg nested ctx
      { st with textBuffer := st.textBuffer ++ t, tagState := tg,
                pendingTextStart := pend1, hasStartedText := started1 }
      callIdx rest)
  | ctx, st, callIdx, Chunk.textEnd i :: rest =>
    emitThen (if st.hasStartedText then [Chunk.textEnd i] else [])
      (loopWith cfg nested ctx st callIdx rest)
  | ctx, st, callIdx, Chunk.finishStep r u :: rest =>
    if (match ctx.mcpTools with
        | some tools => !tools.isEmpty
        | none => false) && !ctx.hasExecutedToolsInCurrentStep then
      let valid := (cfg.parse st.textBuffer).filter
        (fun t => t.status == ToolStatus.pending)
      if !valid.isEmpty then
        let emits := cfg.execToolsEmits valid
        let ctx2 : SCtx :=
          { accUsageCtx { ctx with hasExecutedToolsInCurrentStep := true } u with
              hasExecutedToolsInCurrentStep := false }
        match nested ctx2 callIdx with
        | Except.error e => Except.error e
        | Except.ok nres =>
          emitThen (emits ++ [Chunk.finishStep "tool-calls" u] ++
              pipeRecursive nres.out)
            (loopWith cfg nested nres.ctx st nres.callIdx rest)
      else
        emitThen [Chunk.finishStep r u]
          (loopWith cfg nested (accUsageCtx ctx u)
            { st with textBuffer := [] } callIdx rest)
    else
      emitThen [Chunk.finishStep r u]
        (loopWith cfg nested (accUsageCtx ctx u)
          { st with textBuffer := [] } callIdx rest)
  | ctx, st, callIdx, Chunk.finishEv r _ :: rest =>
    emitThen [Chunk.finishEv r ctx.accumulatedUsage]
      (loopWith cfg nested ctx st callIdx rest)
  | ctx, st, callIdx, ch :: rest =>
    emitThen [ch] (loopWith cfg nested ctx st callIdx rest)

/-- The transform with the bounded recursive re-entry: at recursion budget
`fuel + 1` the nested call runs a fresh transform instance (new `TState`)
over the next provider stream, sharing the context; at budget `0` the nested
call fails like `RecursiveDepthError` does. -/
def runloop (cfg : StreamCfg) : Nat → SCtx → TState → Nat → List Chunk →
    Except StreamErr LoopRes
  | 0 => loopWith cfg (fun _ _ => Except.error StreamErr.depthExceeded)
  | fuel + 1 => loopWith cfg (fun ctx2 callIdx =>
      runloop cfg fuel ctx2 initTState (callIdx + 1) (cfg.provider callIdx))

/-- `transformStream`'s body: without prompt-mode tools the transform is the
identity stream; otherwise the usage accumulator is initialised (if absent)
and the chunk loop runs. -/
def runPromptToolUseTransform (cfg : StreamCfg) (fuel : Nat) (ctx : SCtx)
    (input : List Chunk) : Except StreamErr LoopRes :=
  match ctx.mcpTools with
  | none => Except.ok { ctx := ctx, st := initTState, out := input, callIdx := 0 }
  | some _ =>
    let ctx0 := if ctx.accumulatedUsage.isSome then ctx
                else { ctx with accumulatedUsage := some pluginZeroUsage }
    runloop cfg fuel ctx0 initTState 0 input

/-! ### C2: the tool branch of the finish-step handler -/

theorem pipeRecursive_no_start (l : List Chunk) :
    Chunk.startEv ∉ pipeRecursive l := by
  induction l with
  | nil => simp [pipeRecursive]
  | cons ch rest ih => cases ch <;> simp [pipeRecursive, ih]

theorem pipeRecursive_no_fin (l : List Chunk) (r : String) (u : Option Usage) :
    Chunk.finishEv r u ∉ pipeRecursive l := by
  induction l with
  | nil => simp [pipeRecursive]
  | cons ch rest ih => cases ch <;> simp [pipeRecursive, ih]

/-- C2: when prompt-mode tools exist, none were executed this step, and the
step's accumulated text parses to at least one pending tool use, processing a
finish-step chunk (with recursion budget left) marks the step's tools as
executed, emits the tool executor's events, emits a finish-step event with
`finishReason = 'tool-calls'`, issues the bounded recursive call on the next
provider stream (through a fresh transform instance sharing the context, with
the executed-flag reset for the new step), and pipes the recursive stream's
events into the current stream — and the piping (`pipeRecursive`) never
forwards the nested stream's `start` events and never forwards anything from
its `finish` event on. -/
theorem prompt_tool_use_tool_branch (cfg : StreamCfg) (fuel : Nat) (ctx : SCtx)
    (st : TState) (callIdx : Nat) (r : String) (u : Option Usage)
    (rest : List Chunk) (tools : List String)
    (hTools : ctx.mcpTools = some tools) (hne : tools.isEmpty = false)
    (hexec : ctx.hasExecutedToolsInCurrentStep = false)
    (hvalid : ((cfg.parse st.textBuffer).filter
      (fun t => t.status == ToolStatus.pending)).isEmpty = false) :
    runloop cfg (fuel + 1) ctx st callIdx (Chunk.finishStep r u :: rest) =
      (match runloop cfg fuel
          { accUsageCtx { ctx with hasExecutedToolsInCurrentStep := true } u with
              hasExecutedToolsInCurrentStep := false }
          initTState (callIdx + 1) (cfg.provider callIdx) with
       | Except.error e => Except.error e
       | Except.ok nres =>
         emitThen (cfg.execToolsEmits ((cfg.parse st.textBuffer).filter
               (fun t => t.status == ToolStatus.pending)) ++
             [Chunk.finishStep "tool-calls" u] ++ pipeRecursive nres.out)
           (runloop cfg (fuel + 1) nres.ctx st nres.callIdx rest)) ∧
    (∀ l, Chunk.startEv ∉ pipeRecursive l) ∧
    (∀ l r' u', Chunk.finishEv r' u' ∉ pipeRecursive l) := by
  refine ⟨?_, pipeRecursive_no_start, pipeRecursive_no_fin⟩
  show loopWith cfg _ ctx st callIdx (Chunk.finishStep r u :: rest) = _
  rw [loopWith]
  simp only [hTools, hne, hexec, hvalid, Bool.not_false, Bool.and_self,
    if_true, Bool.not_true]
  rfl

/-- Witness for `prompt_tool_use_tool_branch`: one pending tool parsed from
the buffer; the recursive stream contributes its events with `start` dropped
and `finish` truncated. -/
theorem prompt_tool_use_tool_branch_witness :
    runloop
      { parse := fun _ => [{ id := "t-0", toolName := "t", arguments := "",
                             status := ToolStatus.pending }]
        execToolsEmits := fun _ => [Chunk.toolEv 1]
        provider := fun _ => [Chunk.startEv, Chunk.otherEv 3,
                              Chunk.finishEv "stop" none] }
      2
      { accumulatedUsage := some pluginZeroUsage,
        hasExecutedToolsInCurrentStep := false, mcpTools := some ["t"] }
      initTState 0 [Chunk.finishStep "stop" none] =
    Except.ok
      { ctx := { accumulatedUsage := some pluginZeroUsage,
                 hasExecutedToolsInCurrentStep := false,
                 mcpTools := some ["t"] },
        st := initTState,
        out := [Chunk.toolEv 1, Chunk.finishStep "tool-calls" none,
                Chunk.otherEv 3],
        callIdx := 1 } := by
  have h := prompt_tool_use_tool_branch
    { parse := fun _ => [{ id := "t-0", toolName := "t", arguments := "",
                           status := ToolStatus.pending }]
      execToolsEmits := fun _ => [Chunk.toolEv 1]
      provider := fun _ => [Chunk.startEv, Chunk.otherEv 3,
                            Chunk.finishEv "stop" none] }
    1
    { accumulatedUsage := some pluginZeroUsage,
      hasExecutedToolsInCurrentStep := false, mcpTools := some ["t"] }
    initTState 0 "stop" none [] ["t"] rfl (by decide) rfl (by decide)
  rw [h.1]
  decide

/-! ### Sequential composition of the chunk loop -/

def continueWith (cfg : StreamCfg) (nested : SCtx → Nat → Except StreamErr LoopRes)
    (ys : List Chunk) : Except StreamErr LoopRes → Except StreamErr LoopRes
  | Except.error e => Except.error e
  | Except.ok r =>
    (loopWith cfg nested r.ctx r.st r.callIdx ys).map
      (fun r2 => { r2 with out := r.out ++ r2.out })

theorem continueWith_emitThen (cfg : StreamCfg)
    (nested : SCtx → Nat → Except StreamErr LoopRes) (ys : List Chunk)
    (e : List Chunk) (r : Except StreamErr LoopRes) :
    continueWith cfg nested ys (emitThen e r) =
      emitThen e (continueWith cfg nested ys r) := by
  rcases r with err | r
  · rfl
  · simp only [emitThen, Except.map, continueWith]
    rcases hy : loopWith cfg nested r.ctx r.st r.callIdx ys with err | r2
    · rfl
    · simp [Except.map, List.append_assoc]

theorem loopWith_textDelta_eq (cfg : StreamCfg)
    (nested : SCtx → Nat → Except StreamErr LoopRes) (ctx : SCtx) (st : TState)
    (k i : Nat) (t : List Char) (rest : List Chunk) :
    loopWith cfg nested ctx st k (Chunk.textDelta i t :: rest) =
      emitThen (flushDeltas i (processText toolUseTagConfig st.tagState t).1
          st.pendingTextStart st.hasStartedText).1
        (loopWith cfg nested ctx
          { st with
            textBuffer := st.textBuffer ++ t,
            tagState := (processText toolUseTagConfig st.tagState t).2,
            pendingTextStart :=
              (flushDeltas i (processText toolUseTagConfig st.tagState t).1
                st.pendingTextStart st.hasStartedText).2.1,
            hasStartedText :=
              (flushDeltas i (processText toolUseTagConfig st.tagState t).1
                st.pendingTextStart st.hasStartedText).2.2 }
          k rest) := rfl

theorem loopWith_append (cfg : StreamCfg)
    (nested : SCtx → Nat → Except StreamErr LoopRes) :
    ∀ (xs ys : List Chunk) (ctx : SCtx) (st : TState) (k : Nat),
      loopWith cfg nested ctx st k (xs ++ ys) =
        continueWith cfg nested ys (loopWith cfg nested ctx st k xs) := by
  intro xs
  induction xs with
  | nil =>
    intro ys ctx st k
    rw [List.nil_append]
    show _ = continueWith cfg nested ys (Except.ok
      { ctx := ctx, st := st, out := [], callIdx := k })
    simp only [continueWith]
    rcases h : loopWith cfg nested ctx st k ys with e | r
    · rfl
    · simp [Except.map]
  | cons ch xs' ih =>
    intro ys ctx st k
    cases ch with
    | textStart i =>
      show loopWith cfg nested ctx _ k (xs' ++ ys) = continueWith cfg nested ys
        (loopWith cfg nested ctx _ k xs')
      exact ih ys ctx _ k
    | textDelta i t =>
      rw [show (Chunk.textDelta i t :: xs') ++ ys =
        Chunk.textDelta i t :: (xs' ++ ys) from rfl]
      rw [loopWith_textDelta_eq, loopWith_textDelta_eq, continueWith_emitThen, ih]
    | textEnd i =>
      show emitThen _ (loopWith cfg nested ctx st k (xs' ++ ys)) = _
      rw [ih, ← continueWith_emitThen]
      rfl
    | startStep =>
      show emitThen _ (loopWith cfg nested ctx st k (xs' ++ ys)) = _
      rw [ih, ← continueWith_emitThen]
      rfl
    | startEv =>
      show emitThen _ (loopWith cfg nested ctx st k (xs' ++ ys)) = _
      rw [ih, ← continueWith_emitThen]
      rfl
    | toolEv n =>
      show emitThen _ (loopWith cfg nested ctx st k (xs' ++ ys)) = _
      rw [ih, ← continueWith_emitThen]
      rfl
    | otherEv n =>
      show emitThen _ (loopWith cfg nested ctx st k (xs' ++ ys)) = _
      rw [ih, ← continueWith_emitThen]
      rfl
    | finishEv r u =>
      show emitThen _ (loopWith cfg nested ctx st k (xs' ++ ys)) = _
      rw [ih, ← continueWith_emitThen]
      rfl
    | finishStep r u =>
      rw [show (Chunk.finishStep r u :: xs') ++ ys =
        Chunk.finishStep r u :: (xs' ++ ys) from rfl]
      rw [loopWith, loopWith]
      by_cases hc : ((match ctx.mcpTools with
          | some tools => !tools.isEmpty
          | none => false) && !ctx.hasExecutedToolsInCurrentStep) = true
      · simp only [hc, if_true]
        by_cases hv : (!((cfg.parse st.textBuffer).filter
            (fun t => t.status == ToolStatus.pending)).isEmpty) = true
        · simp only [hv, if_true]
          split
          · next e he =>
            simp only [continueWith]
          · next nres hn =>
            rw [continueWith_emitThen, ih]
        · simp only [eq_false_of_ne_true hv, Bool.false_eq_true, if_false]
          rw [ih, ← continueWith_emitThen]
      · simp only [eq_false_of_ne_true hc, Bool.false_eq_true, if_false]
        rw [ih, ← continueWith_emitThen]

/-! ### C6: the held text-start -/

/-- The contents of the non-tag, non-empty extracted fragments. -/
def visibleFrags (frags : List Frag) : List (List Char) :=
  (frags.filter (fun f => !f.isTagContent && !f.content.isEmpty)).map
    (fun f => f.content)

/-- Spec-side fold describing the engine's text-delta phase. -/
def deltaFold (i : Nat) : TState → List (List Char) → TState × List Chunk
  | st, [] => (st, [])
  | st, t :: ts =>
    let (frags, tg) := processText toolUseTagConfig st.tagState t
    let (out1, pend1, started1) :=
      flushDeltas i frags st.pendingTextStart st.hasStartedText
    let st1 : TState :=
      { st with
        textBuffer := st.textBuffer ++ t, tagState := tg,
        pendingTextStart := pend1, hasStartedText := started1 }
    let (st2, out2) := deltaFold i st1 ts
    (st2, out1 ++ out2)

/-- The visible (non-tag, non-empty) contents across a delta sequence. -/
def vOut : TagState → List (List Char) → List (List Char)
  | _, [] => []
  | ts, t :: rest =>
    let (frags, tg) := processText toolUseTagConfig ts t
    visibleFrags frags ++ vOut tg rest

theorem flushDeltas_started (i : Nat) (frags : List Frag) :
    flushDeltas i frags none true =
      ((visibleFrags frags).map (Chunk.textDelta i), none, true) := by
  induction frags with
  | nil => rfl
  | cons f rest ih =>
    by_cases hf : (!f.isTagContent && !f.content.isEmpty) = true
    · simp [flushDeltas, hf, if_true, ih, visibleFrags, List.filter_cons,
        List.map_cons]
    · simp only [flushDeltas, eq_false_of_ne_true hf, Bool.false_eq_true,
        if_false, ih]
      simp [visibleFrags, List.filter_cons, eq_false_of_ne_true hf]

theorem flushDeltas_held (i : Nat) (frags : List Frag) (p : Chunk) :
    flushDeltas i frags (some p) false =
      (if (visibleFrags frags).isEmpty then ([], some p, false)
       else (p :: (visibleFrags frags).map (Chunk.textDelta i), none, true)) := by
  induction frags with
  | nil => rfl
  | cons f rest ih =>
    by_cases hf : (!f.isTagContent && !f.content.isEmpty) = true
    · simp only [flushDeltas, hf, if_true, flushDeltas_started]
      simp [visibleFrags, List.filter_cons, hf]
    · simp only [flushDeltas, eq_false_of_ne_true hf, Bool.false_eq_true,
        if_false, ih]
      simp [visibleFrags, List.filter_cons, eq_false_of_ne_true hf]

theorem deltaFold_started (i : Nat) :
    ∀ (ds : List (List Char)) (st : TState),
      st.pendingTextStart = none → st.hasStartedText = true →
      (deltaFold i st ds).2 = (vOut st.tagState ds).map (Chunk.textDelta i) ∧
      (deltaFold i st ds).1.hasStartedText = true ∧
      (deltaFold i st ds).1.pendingTextStart = none := by
  intro ds
  induction ds with
  | nil =>
    intro st hp hs
    exact ⟨rfl, hs, hp⟩
  | cons t ts ih =>
    intro st hp hs
    rcases hpt : processText toolUseTagConfig st.tagState t with ⟨frags, tg⟩
    have hstep : deltaFold i st (t :: ts) =
        (let (out1, pend1, started1) :=
          flushDeltas i frags st.pendingTextStart st.hasStartedText
        let st1 : TState :=
          { st with
            textBuffer := st.textBuffer ++ t, tagState := tg,
            pendingTextStart := pend1, hasStartedText := started1 }
        let (st2, out2) := deltaFold i st1 ts
        (st2, out1 ++ out2)) := by
      show (let (frags2, tg2) := processText toolUseTagConfig st.tagState t
            let (out1, pend1, started1) :=
              flushDeltas i frags2 st.pendingTextStart st.hasStartedText
            let st1 : TState :=
              { st with
                textBuffer := st.textBuffer ++ t, tagState := tg2,
                pendingTextStart := pend1, hasStartedText := started1 }
            let (st2, out2) := deltaFold i st1 ts
            (st2, out1 ++ out2)) = _
      rw [hpt]
    rw [hstep, hp, hs, flushDeltas_started]
    have hv : vOut st.tagState (t :: ts) = visibleFrags frags ++ vOut tg ts := by
      show (let (frags2, tg2) := processText toolUseTagConfig st.tagState t
            visibleFrags frags2 ++ vOut tg2 ts) = _
      rw [hpt]
    rw [hv]
    obtain ⟨h1, h2, h3⟩ := ih
      { st with
        textBuffer := st.textBuffer ++ t, tagState := tg,
        pendingTextStart := none, hasStartedText := true } rfl rfl
    refine ⟨?_, h2, h3⟩
    simp only at h1 ⊢
    rw [h1]
    simp [List.map_append]

theorem deltaFold_held (i : Nat) :
    ∀ (ds : List (List Char)) (st : TState),
      st.pendingTextStart = some (Chunk.textStart i) → st.hasStartedText = false →
      (deltaFold i st ds).2 =
        (if (vOut st.tagState ds).isEmpty then []
         else Chunk.textStart i :: (vOut st.tagState ds).map (Chunk.textDelta i)) ∧
      (deltaFold i st ds).1.hasStartedText = !(vOut st.tagState ds).isEmpty := by
  intro ds
  induction ds with
  | nil =>
    intro st hp hs
    exact ⟨rfl, by simp [deltaFold, vOut, hs]⟩
  | cons t ts ih =>
    intro st hp hs
    rcases hpt : processText toolUseTagConfig st.tagState t with ⟨frags, tg⟩
    have hstep : deltaFold i st (t :: ts) =
        (let (out1, pend1, started1) :=
          flushDeltas i frags st.pendingTextStart st.hasStartedText
        let st1 : TState :=
          { st with
            textBuffer := st.textBuffer ++ t, tagState := tg,
            pendingTextStart := pend1, hasStartedText := started1 }
        let (st2, out2) := deltaFold i st1 ts
        (st2, out1 ++ out2)) := by
      show (let (frags2, tg2) := processText toolUseTagConfig st.tagState t
            let (out1, pend1, started1) :=
              flushDeltas i frags2 st.pendingTextStart st.hasStartedText
            let st1 : TState :=
              { st with
                textBuffer := st.textBuffer ++ t, tagState := tg2,
                pendingTextStart := pend1, hasStartedText := started1 }
            let (st2, out2) := deltaFold i st1 ts
            (st2, out1 ++ out2)) = _
      rw [hpt]
    have hv : vOut st.tagState (t :: ts) = visibleFrags frags ++ vOut tg ts := by
      show (let (frags2, tg2) := processText toolUseTagConfig st.tagState t
            visibleFrags frags2 ++ vOut tg2 ts) = _
      rw [hpt]
    rw [hstep, hp, hs, flushDeltas_held, hv]
    by_cases hve : (visibleFrags frags).isEmpty = true
    · have he : visibleFrags frags = [] := by
        simpa [List.isEmpty_iff] using hve
      simp only [hve, if_true]
      obtain ⟨h1, h2⟩ := ih
        { st with
          textBuffer := st.textBuffer ++ t, tagState := tg,
          pendingTextStart := some (Chunk.textStart i), hasStartedText := false }
        rfl rfl
      simp only at h1 h2 ⊢
      rw [he]
      exact ⟨by simpa using h1, by simpa using h2⟩
    · simp only [eq_false_of_ne_true hve, Bool.false_eq_true, if_false]
      obtain ⟨h1, h2, h3⟩ := deltaFold_started i ts
        { st with
          textBuffer := st.textBuffer ++ t, tagState := tg,
          pendingTextStart := none, hasStartedText := true } rfl rfl
      simp only at h1 h2 ⊢
      rw [h1]
      have hne : (visibleFrags frags ++ vOut tg ts).isEmpty = false := by
        rcases hvf : visibleFrags frags with _ | ⟨x, xs⟩
        · rw [hvf] at hve
          simp at hve
        · simp
      rw [hne]
      refine ⟨?_, h2⟩
      simp [List.map_append]

/-- The engine's delta phase equals the spec fold (for any nested runner, and
without touching the context or the call counter). -/
theorem loopWith_deltas (cfg : StreamCfg)
    (nested : SCtx → Nat → Except StreamErr LoopRes) (i : Nat) :
    ∀ (ds : List (List Char)) (ctx : SCtx) (st : TState) (k : Nat),
      loopWith cfg nested ctx st k (ds.map (Chunk.textDelta i)) =
        Except.ok { ctx := ctx, st := (deltaFold i st ds).1,
                    out := (deltaFold i st ds).2, callIdx := k } := by
  intro ds
  induction ds with
  | nil => intro ctx st k; rfl
  | cons t ts ih =>
    intro ctx st k
    rw [List.map_cons, loopWith_textDelta_eq]
    rcases hpt : processText toolUseTagConfig st.tagState t with ⟨frags, tg⟩
    have hstep : deltaFold i st (t :: ts) =
        (let (out1, pend1, started1) :=
          flushDeltas i frags st.pendingTextStart st.hasStartedText
        let st1 : TState :=
          { st with
            textBuffer := st.textBuffer ++ t, tagState := tg,
            pendingTextStart := pend1, hasStartedText := started1 }
        let (st2, out2) := deltaFold i st1 ts
        (st2, out1 ++ out2)) := by
      show (let (frags2, tg2) := processText toolUseTagConfig st.tagState t
            let (out1, pend1, started1) :=
              flushDeltas i frags2 st.pendingTextStart st.hasStartedText
            let st1 : TState :=
              { st with
                textBuffer := st.textBuffer ++ t, tagState := tg2,
                pendingTextStart := pend1, hasStartedText := started1 }
            let (st2, out2) := deltaFold i st1 ts
            (st2, out1 ++ out2)) = _
      rw [hpt]
    rcases hfl : flushDeltas i frags st.pendingTextStart st.hasStartedText
      with ⟨out1, pend1, started1⟩
    rw [hstep, hfl]
    simp only [hpt, hfl]
    rw [ih]
    simp [emitThen, Except.map]

/-- Once `hasStartedText` is set, `flushDeltas` forwards every visible
fragment directly and never touches the held slot again. -/
theorem flushDeltas_already (i : Nat) (frags : List Frag) (p : Option Chunk) :
    flushDeltas i frags p true =
      ((visibleFrags frags).map (Chunk.textDelta i), p, true) := by
  induction frags with
  | nil => rfl
  | cons f rest ih =>
    by_cases hf : (!f.isTagContent && !f.content.isEmpty) = true
    · simp [flushDeltas, hf, ih, visibleFrags, List.filter_cons]
    · simp only [flushDeltas, eq_false_of_ne_true hf, Bool.false_eq_true,
        if_false, ih]
      simp [visibleFrags, List.filter_cons, eq_false_of_ne_true hf]

/-- The delta phase from an already-started state: the visible contents are
forwarded as bare deltas, the started flag stays set, and the held slot is
untouched. -/
theorem deltaFold_already (i : Nat) :
    ∀ (ds : List (List Char)) (st : TState), st.hasStartedText = true →
      (deltaFold i st ds).2 = (vOut st.tagState ds).map (Chunk.textDelta i) ∧
      (deltaFold i st ds).1.hasStartedText = true ∧
      (deltaFold i st ds).1.pendingTextStart = st.pendingTextStart := by
  intro ds
  induction ds with
  | nil =>
    intro st hs
    exact ⟨rfl, hs, rfl⟩
  | cons t ts ih =>
    intro st hs
    rcases hpt : processText toolUseTagConfig st.tagState t with ⟨frags, tg⟩
    have hstep : deltaFold i st (t :: ts) =
        (let (out1, pend1, started1) :=
          flushDeltas i frags st.pendingTextStart st.hasStartedText
        let st1 : TState :=
          { st with
            textBuffer := st.textBuffer ++ t, tagState := tg,
            pendingTextStart := pend1, hasStartedText := started1 }
        let (st2, out2) := deltaFold i st1 ts
        (st2, out1 ++ out2)) := by
      show (let (frags2, tg2) := processText toolUseTagConfig st.tagState t
            let (out1, pend1, started1) :=
              flushDeltas i frags2 st.pendingTextStart st.hasStartedText
            let st1 : TState :=
              { st with
                textBuffer := st.textBuffer ++ t, tagState := tg2,
                pendingTextStart := pend1, hasStartedText := started1 }
            let (st2, out2) := deltaFold i st1 ts
            (st2, out1 ++ out2)) = _
      rw [hpt]
    rw [hstep, hs, flushDeltas_already]
    have hv : vOut st.tagState (t :: ts) = visibleFrags frags ++ vOut tg ts := by
      show (let (frags2, tg2) := processText toolUseTagConfig st.tagState t
            visibleFrags frags2 ++ vOut tg2 ts) = _
      rw [hpt]
    rw [hv]
    obtain ⟨h1, h2, h3⟩ := ih
      { st with
        textBuffer := st.textBuffer ++ t, tagState := tg,
        pendingTextStart := st.pendingTextStart, hasStartedText := true } rfl
    refine ⟨?_, h2, h3⟩
    simp only at h1 ⊢
    rw [h1]
    simp [List.map_append]

/-- Processing a single `text-end` chunk: forwarded exactly when the
(persistent) started flag is set. -/
theorem loopWith_textEnd_single (cfg : StreamCfg)
    (nested : SCtx → Nat → Except StreamErr LoopRes) (ctx : SCtx)
    (st2 : TState) (k j : Nat) :
    loopWith cfg nested ctx st2 k [Chunk.textEnd j] =
      Except.ok
        { ctx := ctx
          st := st2
          out := if st2.hasStartedText then [Chunk.textEnd j] else []
          callIdx := k } := by
  show emitThen (if st2.hasStartedText then [Chunk.textEnd j] else [])
    (Except.ok { ctx := ctx, st := st2, out := [], callIdx := k }) = _
  simp [emitThen, Except.map]

/-- What a whole text block (`text-start`, deltas, `text-end`) emits: nothing
when no visible content ever appears, else the flushed start, the filtered
deltas, and the end marker. -/
def heldEmit (i : Nat) (ds : List (List Char)) : List Chunk :=
  if (vOut initTagState ds).isEmpty then []
  else Chunk.textStart i ::
    ((vOut initTagState ds).map (Chunk.textDelta i) ++ [Chunk.textEnd i])

/-- C6 (amended): the started flag and the held `text-start` are per
transform instance, not per step.  (i) On the instance's first text block
(fresh state) the claimed behavior holds: the incoming `text-start` is held
and forwarded at most once, only when a non-tag fragment with non-empty
content appears; a block consisting only of tool-use markers emits no
`text-start`, no `text-delta` and no `text-end`; and `text-end` is forwarded
exactly when a `text-start` was flushed.  (ii) But from any state whose
started flag is already set (as after an earlier step flushed a start,
since nothing resets the flag between steps), a later text block forwards
its deltas bare, never flushes its held `text-start`, and always forwards
`text-end` — even when the block consists only of tool markers — so the
per-step start/end pairing fails for every step after the first flush. -/
theorem prompt_tool_use_held_text_start (cfg : StreamCfg)
    (nested : SCtx → Nat → Except StreamErr LoopRes) (i : Nat)
    (ds : List (List Char)) (ctx : SCtx) (k : Nat) (stA : TState) (j : Nat)
    (es : List (List Char)) (hA : stA.hasStartedText = true) :
    loopWith cfg nested ctx initTState k
        (Chunk.textStart i :: (ds.map (Chunk.textDelta i) ++ [Chunk.textEnd i])) =
      Except.ok
        { ctx := ctx
          st := (deltaFold i
            { initTState with pendingTextStart := some (Chunk.textStart i) } ds).1
          out := heldEmit i ds
          callIdx := k } ∧
    (heldEmit i ds).count (Chunk.textStart i) =
      (if (vOut initTagState ds).isEmpty then 0 else 1) ∧
    (heldEmit i ds).isEmpty = (vOut initTagState ds).isEmpty ∧
    (Chunk.textEnd i ∈ heldEmit i ds ↔ Chunk.textStart i ∈ heldEmit i ds) ∧
    (loopWith cfg nested ctx stA k
        (Chunk.textStart j :: (es.map (Chunk.textDelta j) ++ [Chunk.textEnd j])) =
      Except.ok
        { ctx := ctx
          st := (deltaFold j
            { stA with pendingTextStart := some (Chunk.textStart j) } es).1
          out := (vOut stA.tagState es).map (Chunk.textDelta j) ++
            [Chunk.textEnd j]
          callIdx := k }) ∧
    Chunk.textEnd j ∈ (vOut stA.tagState es).map (Chunk.textDelta j) ++
      [Chunk.textEnd j] ∧
    ((vOut stA.tagState es).map (Chunk.textDelta j) ++
      [Chunk.textEnd j]).count (Chunk.textStart j) = 0 := by
  refine ⟨?_, ?_, ?_, ?_, ?_, ?_, ?_⟩
  · have hfirst : loopWith cfg nested ctx initTState k
        (Chunk.textStart i :: (ds.map (Chunk.textDelta i) ++ [Chunk.textEnd i])) =
        loopWith cfg nested ctx
          { initTState with pendingTextStart := some (Chunk.textStart i) } k
          (ds.map (Chunk.textDelta i) ++ [Chunk.textEnd i]) := rfl
    rw [hfirst, loopWith_append, loopWith_deltas]
    obtain ⟨h1, h2⟩ := deltaFold_held i ds
      { initTState with pendingTextStart := some (Chunk.textStart i) } rfl rfl
    have hend : ∀ st2 : TState, loopWith cfg nested ctx st2 k [Chunk.textEnd i] =
        Except.ok
          { ctx := ctx
            st := st2
            out := if st2.hasStartedText then [Chunk.textEnd i] else []
            callIdx := k } := by
      intro st2
      show emitThen (if st2.hasStartedText then [Chunk.textEnd i] else [])
        (Except.ok { ctx := ctx, st := st2, out := [], callIdx := k }) = _
      simp [emitThen, Except.map]
    simp only [continueWith]
    rw [hend]
    simp only [Except.map]
    rw [h1, h2]
    have htag : initTState.tagState = initTagState := rfl
    by_cases hv : (vOut initTagState ds).isEmpty = true
    · simp [heldEmit, hv, htag, List.isEmpty_iff.mp hv]
    · simp [heldEmit, eq_false_of_ne_true hv, htag]
  · by_cases hv : (vOut initTagState ds).isEmpty = true
    · simp [heldEmit, hv]
    · have hz : ((vOut initTagState ds).map (Chunk.textDelta i)).count
          (Chunk.textStart i) = 0 := by
        rw [List.count_eq_zero]
        simp
      simp [heldEmit, eq_false_of_ne_true hv, List.count_cons, List.count_append,
        hz]
  · by_cases hv : (vOut initTagState ds).isEmpty = true
    · simp [heldEmit, hv]
    · simp [heldEmit, eq_false_of_ne_true hv]
  · by_cases hv : (vOut initTagState ds).isEmpty = true
    · simp [heldEmit, hv]
    · simp [heldEmit, eq_false_of_ne_true hv]
  · have hfirstA : loopWith cfg nested ctx stA k
        (Chunk.textStart j :: (es.map (Chunk.textDelta j) ++ [Chunk.textEnd j])) =
        loopWith cfg nested ctx
          { stA with pendingTextStart := some (Chunk.textStart j) } k
          (es.map (Chunk.textDelta j) ++ [Chunk.textEnd j]) := rfl
    rw [hfirstA, loopWith_append, loopWith_deltas]
    obtain ⟨h1, h2, h3⟩ := deltaFold_already j es
      { stA with pendingTextStart := some (Chunk.textStart j) } hA
    simp only [continueWith]
    rw [loopWith_textEnd_single]
    simp only [Except.map]
    rw [h1, h2]
    have htg : ({ stA with pendingTextStart := some (Chunk.textStart j) }
        : TState).tagState = stA.tagState := rfl
    rw [htg]
    simp
  · simp
  · rw [List.count_eq_zero]
    simp

def c6wCfg : StreamCfg :=
  { parse := fun _ => []
    execToolsEmits := fun _ => []
    provider := fun _ => [] }

def c6wNested : SCtx → Nat → Except StreamErr LoopRes :=
  fun _ _ => Except.error StreamErr.depthExceeded

def c6wCtx : SCtx :=
  { accumulatedUsage := none, hasExecutedToolsInCurrentStep := false
    mcpTools := some ["t"] }

def c6wStA : TState := { initTState with hasStartedText := true }

theorem prompt_tool_use_held_text_start_witness :
    c6wStA.hasStartedText = true ∧
    Chunk.textEnd 1 ∈ (vOut c6wStA.tagState [['a']]).map (Chunk.textDelta 1) ++
      [Chunk.textEnd 1] ∧
    ((vOut c6wStA.tagState [['a']]).map (Chunk.textDelta 1) ++
      [Chunk.textEnd 1]).count (Chunk.textStart 1) = 0 :=
  ⟨rfl,
   (prompt_tool_use_held_text_start c6wCfg c6wNested 0 [] c6wCtx 0 c6wStA 1
     [['a']] rfl).2.2.2.2.2.1,
   (prompt_tool_use_held_text_start c6wCfg c6wNested 0 [] c6wCtx 0 c6wStA 1
     [['a']] rfl).2.2.2.2.2.2⟩

def c6cxCfg : StreamCfg :=
  { parse := fun _ => []
    execToolsEmits := fun _ => []
    provider := fun _ => [] }

def c6cxCtx : SCtx :=
  { accumulatedUsage := none, hasExecutedToolsInCurrentStep := false
    mcpTools := some ["t"] }

/-- A two-step stream: step 1 has visible text (crossing into a tool-use
tag), step 2's text consists only of the closing tool-use marker. -/
def c6cxInput : List Chunk :=
  [Chunk.textStart 0, Chunk.textDelta 0 "hi<tool_use>".toList, Chunk.textEnd 0,
   Chunk.finishStep "stop" none,
   Chunk.textStart 1, Chunk.textDelta 1 "</tool_use>".toList, Chunk.textEnd 1]

/-- C6 counterexample: after step 1 flushes a `text-start`, the started flag
persists across the step boundary, so step 2 — whose text consists only of a
tool-use marker — still forwards its `text-end` while its held `text-start`
is never flushed: the output contains `textEnd 1` but no `textStart 1`,
refuting the per-step claims "a step whose text consists only of tool-use
markers emits no text-end" and "text-end is forwarded only if a text-start
was flushed for that step". -/
theorem text_end_without_flushed_start_counterexample :
    runloop c6cxCfg 1 c6cxCtx initTState 0 c6cxInput =
      Except.ok
        { ctx := c6cxCtx
          st := { textBuffer := "</tool_use>".toList
                  tagState := { buffer := [], insideTag := false }
                  pendingTextStart := some (Chunk.textStart 1)
                  hasStartedText := true }
          out := [Chunk.textStart 0, Chunk.textDelta 0 ['h', 'i'],
                  Chunk.textEnd 0, Chunk.finishStep "stop" none,
                  Chunk.textEnd 1]
          callIdx := 0 } ∧
    [Chunk.textStart 0, Chunk.textDelta 0 ['h', 'i'], Chunk.textEnd 0,
      Chunk.finishStep "stop" none, Chunk.textEnd 1].count (Chunk.textEnd 1)
      = 1 ∧
    [Chunk.textStart 0, Chunk.textDelta 0 ['h', 'i'], Chunk.textEnd 0,
      Chunk.finishStep "stop" none, Chunk.textEnd 1].count (Chunk.textStart 1)
      = 0 := by
  exact ⟨by decide, by decide, by decide⟩

/-! ### C3: total-usage accumulation across recursive descendants -/

/-- `true` for every chunk except a top-level `finish` event. -/
def notFin : Chunk → Bool
  | Chunk.finishEv _ _ => false
  | _ => true

/-- The list contains no top-level `finish` event. -/
def noFinB (l : List Chunk) : Bool := l.all notFin

/-- The usage payloads carried by the finish-step events of a chunk list, in
stream order. -/
def fsUsages : List Chunk → List Usage
  | [] => []
  | Chunk.finishStep _ (some u) :: rest => u :: fsUsages rest
  | _ :: rest => fsUsages rest

/-- Left-to-right accumulation of a list of step usages onto a running
total, one `accumulateUsage` call per step. -/
def addAll (z : Usage) : List Usage → Usage
  | [] => z
  | u :: us => addAll (accU z u) us

/-- A held `text-start` slot is empty or holds an actual `text-start`. -/
def pendOkO : Option Chunk → Bool
  | none => true
  | some (Chunk.textStart _) => true
  | some _ => false

theorem addAll_append (z : Usage) (xs ys : List Usage) :
    addAll z (xs ++ ys) = addAll (addAll z xs) ys := by
  induction xs generalizing z with
  | nil => rfl
  | cons x xs ih => simp [addAll, ih]

theorem fsUsages_append (xs ys : List Chunk) :
    fsUsages (xs ++ ys) = fsUsages xs ++ fsUsages ys := by
  induction xs with
  | nil => rfl
  | cons ch rest ih =>
    cases ch with
    | finishStep r u => cases u <;> simp [fsUsages, ih]
    | _ => simp [fsUsages, ih]

theorem noFinB_append (xs ys : List Chunk) :
    noFinB (xs ++ ys) = (noFinB xs && noFinB ys) := by
  simp [noFinB, List.all_append]

theorem noFinB_cons (c : Chunk) (l : List Chunk) :
    noFinB (c :: l) = (notFin c && noFinB l) := by
  simp [noFinB, List.all_cons]

theorem pipeRecursive_noFinB (l : List Chunk) :
    noFinB (pipeRecursive l) = true := by
  induction l with
  | nil => rfl
  | cons ch rest ih => cases ch <;> simp [pipeRecursive, noFinB, notFin] <;>
      simpa [noFinB] using ih

theorem pipeRecursive_fsUsages (pr : String) (a : Option Usage) :
    ∀ (xs : List Chunk), noFinB xs = true →
      fsUsages (pipeRecursive (xs ++ [Chunk.finishEv pr a])) = fsUsages xs := by
  intro xs
  induction xs with
  | nil => intro _; rfl
  | cons ch rest ih =>
    intro h
    rw [noFinB, List.all_cons, Bool.and_eq_true] at h
    have hrest : noFinB rest = true := h.2
    cases ch with
    | finishEv r u => simp [notFin] at h
    | startEv => simpa [pipeRecursive, fsUsages] using ih hrest
    | finishStep r u =>
      cases u <;> simp [pipeRecursive, fsUsages, ih hrest]
    | _ => simp [pipeRecursive, fsUsages, ih hrest]

theorem flushDeltas_fs (i : Nat) :
    ∀ (frags : List Frag) (p : Option Chunk) (s : Bool), pendOkO p = true →
      fsUsages (flushDeltas i frags p s).1 = [] ∧
      noFinB (flushDeltas i frags p s).1 = true ∧
      pendOkO (flushDeltas i frags p s).2.1 = true := by
  intro frags
  induction frags with
  | nil => intro p s hp; exact ⟨rfl, rfl, hp⟩
  | cons f rest ih =>
    intro p s hp
    by_cases hf : (!f.isTagContent && !f.content.isEmpty) = true
    · match hs : s, hpv : p with
      | false, some pc =>
        cases pc with
        | textStart j =>
          have h2 := ih none true rfl
          simp only [flushDeltas, hf, if_true]
          rcases hr : flushDeltas i rest none true with ⟨out, pe, sd⟩
          rw [hr] at h2
          exact ⟨by simp [fsUsages, h2.1], by simp [noFinB_cons, notFin, h2.2.1], h2.2.2⟩
        | _ => simp [pendOkO] at hp
      | true, pp =>
        have h2 := ih pp true hp
        simp only [flushDeltas, hf, if_true]
        rcases hr : flushDeltas i rest pp true with ⟨out, pe, sd⟩
        rw [hr] at h2
        exact ⟨by simp [fsUsages, h2.1], by simp [noFinB_cons, notFin, h2.2.1], h2.2.2⟩
      | false, none =>
        have h2 := ih none false rfl
        simp only [flushDeltas, hf, if_true]
        rcases hr : flushDeltas i rest none false with ⟨out, pe, sd⟩
        rw [hr] at h2
        exact ⟨by simp [fsUsages, h2.1], by simp [noFinB_cons, notFin, h2.2.1], h2.2.2⟩
    · simp only [flushDeltas, eq_false_of_ne_true hf, Bool.false_eq_true, if_false]
      exact ih p s hp

theorem emitThen_ok_inv (e : List Chunk) (r : Except StreamErr LoopRes)
    (res : LoopRes) (h : emitThen e r = Except.ok res) :
    ∃ res2, r = Except.ok res2 ∧ res = { res2 with out := e ++ res2.out } := by
  rcases r with err | r2
  · simp [emitThen, Except.map] at h
  · refine ⟨r2, rfl, ?_⟩
    simp only [emitThen, Except.map, Except.ok.injEq] at h
    exact h.symm

theorem accUsage_step (ctx : SCtx) (z : Usage) (u : Option Usage)
    (hacc : ctx.accumulatedUsage = some z) :
    ∃ z2, (accUsageCtx ctx u).accumulatedUsage = some z2 ∧
      (accUsageCtx ctx u).mcpTools = ctx.mcpTools ∧
      (accUsageCtx ctx u).hasExecutedToolsInCurrentStep =
        ctx.hasExecutedToolsInCurrentStep ∧
      ∀ (r : String) (L : List Usage),
        addAll z (fsUsages [Chunk.finishStep r u] ++ L) = addAll z2 L := by
  rcases u with _ | uu
  · refine ⟨z, ?_, ?_, ?_, ?_⟩
    · simp [accUsageCtx, hacc]
    · simp [accUsageCtx, hacc]
    · simp [accUsageCtx, hacc]
    · intro r L
      simp [fsUsages]
  · refine ⟨accU z uu, ?_, ?_, ?_, ?_⟩
    · simp [accUsageCtx, hacc]
    · simp [accUsageCtx, hacc]
    · simp [accUsageCtx, hacc]
    · intro r L
      simp [fsUsages, addAll]

/-- Master invariant of the chunk loop: starting from an initialised
accumulator, the final accumulator equals the starting value folded with the
usage of every finish-step event the transform emitted (those of the current
stream and, through the piping, those of all recursive descendants); the
prompt-mode tool list and the per-step executed flag are preserved; and no
top-level finish event is fabricated. -/
theorem loopWith_acc (cfg : StreamCfg)
    (nested : SCtx → Nat → Except StreamErr LoopRes)
    (Hexec : ∀ ts, fsUsages (cfg.execToolsEmits ts) = [] ∧
      noFinB (cfg.execToolsEmits ts) = true)
    (Hn : ∀ ctx2 z2 k2 res2, ctx2.accumulatedUsage = some z2 →
      nested ctx2 k2 = Except.ok res2 →
      res2.ctx.accumulatedUsage =
        some (addAll z2 (fsUsages (pipeRecursive res2.out))) ∧
      res2.ctx.mcpTools = ctx2.mcpTools ∧
      res2.ctx.hasExecutedToolsInCurrentStep =
        ctx2.hasExecutedToolsInCurrentStep) :
    ∀ (input : List Chunk) (ctx : SCtx) (st : TState) (k : Nat) (z : Usage)
      (res : LoopRes),
      pendOkO st.pendingTextStart = true → ctx.accumulatedUsage = some z →
      loopWith cfg nested ctx st k input = Except.ok res →
      res.ctx.accumulatedUsage = some (addAll z (fsUsages res.out)) ∧
      res.ctx.mcpTools = ctx.mcpTools ∧
      res.ctx.hasExecutedToolsInCurrentStep =
        ctx.hasExecutedToolsInCurrentStep ∧
      (noFinB input = true → noFinB res.out = true) := by
  intro input
  induction input with
  | nil =>
    intro ctx st k z res hp hacc hrun
    have hres : Except.ok { ctx := ctx, st := st, out := [], callIdx := k } =
        Except.ok res := hrun
    rw [Except.ok.injEq] at hres
    rw [← hres]
    exact ⟨by simpa [addAll, fsUsages] using hacc, rfl, rfl, fun _ => rfl⟩
  | cons ch rest ih =>
    intro ctx st k z res hp hacc hrun
    cases ch with
    | textStart i =>
      obtain ⟨h1, h2, h3, h4⟩ := ih ctx
        { st with pendingTextStart := some (Chunk.textStart i) } k z res rfl
        hacc hrun
      refine ⟨h1, h2, h3, fun hh => h4 ?_⟩
      rw [noFinB_cons, Bool.and_eq_true] at hh
      exact hh.2
    | textDelta i t =>
      rw [loopWith_textDelta_eq] at hrun
      obtain ⟨res2, hr2, hres⟩ := emitThen_ok_inv _ _ _ hrun
      obtain ⟨hfs, hnf, hpo⟩ := flushDeltas_fs i
        (processText toolUseTagConfig st.tagState t).1 st.pendingTextStart
        st.hasStartedText hp
      obtain ⟨h1, h2, h3, h4⟩ := ih _ _ k z res2 hpo hacc hr2
      subst hres
      refine ⟨?_, h2, h3, ?_⟩
      · show res2.ctx.accumulatedUsage = _
        rw [fsUsages_append, hfs, List.nil_append]
        exact h1
      · intro hh
        rw [noFinB_cons, Bool.and_eq_true] at hh
        show noFinB (_ ++ res2.out) = true
        rw [noFinB_append, Bool.and_eq_true]
        exact ⟨hnf, h4 hh.2⟩
    | textEnd i =>
      have hrun2 : emitThen (if st.hasStartedText then [Chunk.textEnd i] else [])
          (loopWith cfg nested ctx st k rest) = Except.ok res := hrun
      obtain ⟨res2, hr2, hres⟩ := emitThen_ok_inv _ _ _ hrun2
      obtain ⟨h1, h2, h3, h4⟩ := ih ctx st k z res2 hp hacc hr2
      subst hres
      have hfse : fsUsages (if st.hasStartedText then [Chunk.textEnd i] else [])
          = [] := by rcases st.hasStartedText <;> rfl
      have hnfe : noFinB (if st.hasStartedText then [Chunk.textEnd i] else [])
          = true := by rcases st.hasStartedText <;> rfl
      refine ⟨?_, h2, h3, ?_⟩
      · show res2.ctx.accumulatedUsage = _
        rw [fsUsages_append, hfse, List.nil_append]
        exact h1
      · intro hh
        rw [noFinB_cons, Bool.and_eq_true] at hh
        show noFinB (_ ++ res2.out) = true
        rw [noFinB_append, Bool.and_eq_true]
        exact ⟨hnfe, h4 hh.2⟩
    | startStep =>
      have hrun2 : emitThen [Chunk.startStep]
          (loopWith cfg nested ctx st k rest) = Except.ok res := hrun
      obtain ⟨res2, hr2, hres⟩ := emitThen_ok_inv _ _ _ hrun2
      obtain ⟨h1, h2, h3, h4⟩ := ih ctx st k z res2 hp hacc hr2
      subst hres
      refine ⟨h1, h2, h3, ?_⟩
      intro hh
      rw [noFinB_cons, Bool.and_eq_true] at hh
      show noFinB (_ ++ res2.out) = true
      rw [noFinB_append, Bool.and_eq_true]
      exact ⟨rfl, h4 hh.2⟩
    | startEv =>
      have hrun2 : emitThen [Chunk.startEv]
          (loopWith cfg nested ctx st k rest) = Except.ok res := hrun
      obtain ⟨res2, hr2, hres⟩ := emitThen_ok_inv _ _ _ hrun2
      obtain ⟨h1, h2, h3, h4⟩ := ih ctx st k z res2 hp hacc hr2
      subst hres
      refine ⟨h1, h2, h3, ?_⟩
      intro hh
      rw [noFinB_cons, Bool.and_eq_true] at hh
      show noFinB (_ ++ res2.out) = true
      rw [noFinB_append, Bool.and_eq_true]
      exact ⟨rfl, h4 hh.2⟩
    | toolEv n =>
      have hrun2 : emitThen [Chunk.toolEv n]
          (loopWith cfg nested ctx st k rest) = Except.ok res := hrun
      obtain ⟨res2, hr2, hres⟩ := emitThen_ok_inv _ _ _ hrun2
      obtain ⟨h1, h2, h3, h4⟩ := ih ctx st k z res2 hp hacc hr2
      subst hres
      refine ⟨h1, h2, h3, ?_⟩
      intro hh
      rw [noFinB_cons, Bool.and_eq_true] at hh
      show noFinB (_ ++ res2.out) = true
      rw [noFinB_append, Bool.and_eq_true]
      exact ⟨rfl, h4 hh.2⟩
    | otherEv n =>
      have hrun2 : emitThen [Chunk.otherEv n]
          (loopWith cfg nested ctx st k rest) = Except.ok res := hrun
      obtain ⟨res2, hr2, hres⟩ := emitThen_ok_inv _ _ _ hrun2
      obtain ⟨h1, h2, h3, h4⟩ := ih ctx st k z res2 hp hacc hr2
      subst hres
      refine ⟨h1, h2, h3, ?_⟩
      intro hh
      rw [noFinB_cons, Bool.and_eq_true] at hh
      show noFinB (_ ++ res2.out) = true
      rw [noFinB_append, Bool.and_eq_true]
      exact ⟨rfl, h4 hh.2⟩
    | finishEv r u =>
      have hrun2 : emitThen [Chunk.finishEv r ctx.accumulatedUsage]
          (loopWith cfg nested ctx st k rest) = Except.ok res := hrun
      obtain ⟨res2, hr2, hres⟩ := emitThen_ok_inv _ _ _ hrun2
      obtain ⟨h1, h2, h3, _⟩ := ih ctx st k z res2 hp hacc hr2
      subst hres
      refine ⟨?_, h2, h3, ?_⟩
      · show res2.ctx.accumulatedUsage = _
        rw [fsUsages_append]
        exact h1
      · intro hh
        rw [noFinB_cons] at hh
        simp [notFin] at hh
    | finishStep r u =>
      have heq : loopWith cfg nested ctx st k (Chunk.finishStep r u :: rest) =
          (if (match ctx.mcpTools with
              | some tools => !tools.isEmpty
              | none => false) && !ctx.hasExecutedToolsInCurrentStep then
            (if !((cfg.parse st.textBuffer).filter
                (fun t => t.status == ToolStatus.pending)).isEmpty then
              match nested { accUsageCtx
                  { ctx with hasExecutedToolsInCurrentStep := true } u with
                    hasExecutedToolsInCurrentStep := false } k with
              | Except.error e => Except.error e
              | Except.ok nres =>
                emitThen (cfg.execToolsEmits ((cfg.parse st.textBuffer).filter
                    (fun t => t.status == ToolStatus.pending)) ++
                    [Chunk.finishStep "tool-calls" u] ++ pipeRecursive nres.out)
                  (loopWith cfg nested nres.ctx st nres.callIdx rest)
            else
              emitThen [Chunk.finishStep r u]
                (loopWith cfg nested (accUsageCtx ctx u)
                  { st with textBuffer := [] } k rest))
          else
            emitThen [Chunk.finishStep r u]
              (loopWith cfg nested (accUsageCtx ctx u)
                { st with textBuffer := [] } k rest)) := rfl
      rw [heq] at hrun
      by_cases hc : ((match ctx.mcpTools with
          | some tools => !tools.isEmpty
          | none => false) && !ctx.hasExecutedToolsInCurrentStep) = true
      · rw [if_pos hc] at hrun
        by_cases hv : (!((cfg.parse st.textBuffer).filter
            (fun t => t.status == ToolStatus.pending)).isEmpty) = true
        · rw [if_pos hv] at hrun
          have hex : ctx.hasExecutedToolsInCurrentStep = false := by
            have h2 := hc
            rw [Bool.and_eq_true] at h2
            simpa using h2.2
          rcases hn : nested { accUsageCtx
              { ctx with hasExecutedToolsInCurrentStep := true } u with
                hasExecutedToolsInCurrentStep := false } k with e | nres
          · simp only [hn] at hrun
            simp at hrun
          · simp only [hn] at hrun
            obtain ⟨res2, hr2, hres⟩ := emitThen_ok_inv _ _ _ hrun
            obtain ⟨z2, hz1, hz2, hz3, hz4⟩ := accUsage_step
              { ctx with hasExecutedToolsInCurrentStep := true } z u hacc
            have hz1b : ({ accUsageCtx
                { ctx with hasExecutedToolsInCurrentStep := true } u with
                  hasExecutedToolsInCurrentStep := false } : SCtx).accumulatedUsage
                = some z2 := hz1
            obtain ⟨hn1, hn2, hn3⟩ := Hn { accUsageCtx
                { ctx with hasExecutedToolsInCurrentStep := true } u with
                  hasExecutedToolsInCurrentStep := false } z2 k nres hz1b hn
            obtain ⟨h1, h2, h3, h4⟩ := ih nres.ctx st nres.callIdx
              (addAll z2 (fsUsages (pipeRecursive nres.out))) res2 hp hn1 hr2
            subst hres
            refine ⟨?_, ?_, ?_, ?_⟩
            · show res2.ctx.accumulatedUsage = _
              rw [h1]
              congr 1
              rw [fsUsages_append, fsUsages_append, fsUsages_append,
                (Hexec _).1, List.nil_append, addAll_append, hz4 "tool-calls"]
            · show res2.ctx.mcpTools = _
              rw [h2, hn2]
              exact hz2
            · show res2.ctx.hasExecutedToolsInCurrentStep = _
              rw [h3, hn3, hex]
            · intro hh
              rw [noFinB_cons, Bool.and_eq_true] at hh
              show noFinB (_ ++ res2.out) = true
              rw [noFinB_append, noFinB_append, noFinB_append]
              simp only [Bool.and_eq_true]
              exact ⟨⟨⟨(Hexec _).2, rfl⟩, pipeRecursive_noFinB _⟩, h4 hh.2⟩
        · rw [if_neg hv] at hrun
          obtain ⟨res2, hr2, hres⟩ := emitThen_ok_inv _ _ _ hrun
          obtain ⟨z2, hz1, hz2, hz3, hz4⟩ := accUsage_step ctx z u hacc
          obtain ⟨h1, h2, h3, h4⟩ := ih (accUsageCtx ctx u)
            { st with textBuffer := [] } k z2 res2 hp hz1 hr2
          subst hres
          refine ⟨?_, ?_, ?_, ?_⟩
          · show res2.ctx.accumulatedUsage = _
            rw [h1]
            congr 1
            rw [fsUsages_append, ← hz4 r]
          · show res2.ctx.mcpTools = _
            rw [h2, hz2]
          · show res2.ctx.hasExecutedToolsInCurrentStep = _
            rw [h3, hz3]
          · intro hh
            rw [noFinB_cons, Bool.and_eq_true] at hh
            show noFinB (_ ++ res2.out) = true
            rw [noFinB_append, Bool.and_eq_true]
            exact ⟨rfl, h4 hh.2⟩
      · rw [if_neg hc] at hrun
        obtain ⟨res2, hr2, hres⟩ := emitThen_ok_inv _ _ _ hrun
        obtain ⟨z2, hz1, hz2, hz3, hz4⟩ := accUsage_step ctx z u hacc
        obtain ⟨h1, h2, h3, h4⟩ := ih (accUsageCtx ctx u)
          { st with textBuffer := [] } k z2 res2 hp hz1 hr2
        subst hres
        refine ⟨?_, ?_, ?_, ?_⟩
        · show res2.ctx.accumulatedUsage = _
          rw [h1]
          congr 1
          rw [fsUsages_append, ← hz4 r]
        · show res2.ctx.mcpTools = _
          rw [h2, hz2]
        · show res2.ctx.hasExecutedToolsInCurrentStep = _
          rw [h3, hz3]
        · intro hh
          rw [noFinB_cons, Bool.and_eq_true] at hh
          show noFinB (_ ++ res2.out) = true
          rw [noFinB_append, Bool.and_eq_true]
          exact ⟨rfl, h4 hh.2⟩

/-- The nested re-entry function that `runloop` passes to `loopWith` at each
recursion budget. -/
def nestedRun (cfg : StreamCfg) : Nat → SCtx → Nat → Except StreamErr LoopRes
  | 0, _, _ => Except.error StreamErr.depthExceeded
  | fuel + 1, ctx2, k => runloop cfg fuel ctx2 initTState (k + 1) (cfg.provider k)

theorem runloop_eq (cfg : StreamCfg) (fuel : Nat) :
    runloop cfg fuel = loopWith cfg (nestedRun cfg fuel) := by
  cases fuel <;> rfl

/-- The recursive re-entry satisfies the accumulator contract of
`loopWith_acc` at every recursion budget, for well-ended provider streams. -/
theorem nestedRun_acc (cfg : StreamCfg)
    (Hexec : ∀ ts, fsUsages (cfg.execToolsEmits ts) = [] ∧
      noFinB (cfg.execToolsEmits ts) = true)
    (Hprov : ∀ j, ∃ pb pr pu, cfg.provider j = pb ++ [Chunk.finishEv pr pu] ∧
      noFinB pb = true) :
    ∀ (fuel : Nat) (ctx2 : SCtx) (z2 : Usage) (k2 : Nat) (res2 : LoopRes),
      ctx2.accumulatedUsage = some z2 →
      nestedRun cfg fuel ctx2 k2 = Except.ok res2 →
      res2.ctx.accumulatedUsage =
        some (addAll z2 (fsUsages (pipeRecursive res2.out))) ∧
      res2.ctx.mcpTools = ctx2.mcpTools ∧
      res2.ctx.hasExecutedToolsInCurrentStep =
        ctx2.hasExecutedToolsInCurrentStep := by
  intro fuel
  induction fuel with
  | zero =>
    intro ctx2 z2 k2 res2 hacc hrun
    simp [nestedRun] at hrun
  | succ fuel ih =>
    intro ctx2 z2 k2 res2 hacc hrun
    have hrun2 : runloop cfg fuel ctx2 initTState (k2 + 1) (cfg.provider k2)
        = Except.ok res2 := hrun
    rw [runloop_eq] at hrun2
    obtain ⟨pb, pr, pu, hpj, hnf⟩ := Hprov k2
    rw [hpj, loopWith_append] at hrun2
    rcases hb : loopWith cfg (nestedRun cfg fuel) ctx2 initTState (k2 + 1) pb
      with e | res1
    · rw [hb] at hrun2
      simp [continueWith] at hrun2
    · rw [hb] at hrun2
      have hfin : loopWith cfg (nestedRun cfg fuel) res1.ctx res1.st
          res1.callIdx [Chunk.finishEv pr pu] = Except.ok
          { ctx := res1.ctx
            st := res1.st
            out := [Chunk.finishEv pr res1.ctx.accumulatedUsage]
            callIdx := res1.callIdx } := rfl
      simp only [continueWith, hfin, Except.map, Except.ok.injEq] at hrun2
      obtain ⟨h1, h2, h3, h4⟩ := loopWith_acc cfg (nestedRun cfg fuel) Hexec ih
        pb ctx2 initTState (k2 + 1) z2 res1 rfl hacc hb
      rw [← hrun2]
      refine ⟨?_, h2, h3⟩
      show res1.ctx.accumulatedUsage = some (addAll z2 (fsUsages (pipeRecursive
        (res1.out ++ [Chunk.finishEv pr res1.ctx.accumulatedUsage]))))
      rw [pipeRecursive_fsUsages pr res1.ctx.accumulatedUsage res1.out (h4 hnf)]
      exact h1

/-- C3: over a whole streaming conversation (body with no top-level finish,
then the top-level finish), starting from a fresh context with prompt-mode
tools, the transform forwards the finish event with its total usage replaced
by the accumulated usage, and that accumulated usage is the accumulator
fold of the usage of every finish-step event in the emitted stream — which,
because recursive descendant streams are piped into the output, covers every
step of every recursive descendant, not only the final step. -/
theorem prompt_tool_use_total_usage (cfg : StreamCfg) (fuel : Nat)
    (tools : List String) (body : List Chunk) (r : String) (u : Option Usage)
    (ctx : SCtx) (res : LoopRes)
    (Hexec : ∀ ts, fsUsages (cfg.execToolsEmits ts) = [] ∧
      noFinB (cfg.execToolsEmits ts) = true)
    (Hprov : ∀ j, ∃ pb pr pu, cfg.provider j = pb ++ [Chunk.finishEv pr pu] ∧
      noFinB pb = true)
    (hmcp : ctx.mcpTools = some tools)
    (hacc : ctx.accumulatedUsage = none)
    (hbody : noFinB body = true)
    (hrun : runPromptToolUseTransform cfg fuel ctx
      (body ++ [Chunk.finishEv r u]) = Except.ok res) :
    ∃ outBody,
      res.out = outBody ++ [Chunk.finishEv r
        (some (addAll pluginZeroUsage (fsUsages outBody)))] ∧
      noFinB outBody = true ∧
      res.ctx.accumulatedUsage =
        some (addAll pluginZeroUsage (fsUsages outBody)) := by
  have hrun2 : runloop cfg fuel
      { ctx with accumulatedUsage := some pluginZeroUsage } initTState 0
      (body ++ [Chunk.finishEv r u]) = Except.ok res := by
    rw [← hrun]
    simp [runPromptToolUseTransform, hmcp, hacc]
  rw [runloop_eq, loopWith_append] at hrun2
  rcases hb : loopWith cfg (nestedRun cfg fuel)
      { ctx with accumulatedUsage := some pluginZeroUsage } initTState 0 body
    with e | res1
  · rw [hb] at hrun2
    simp [continueWith] at hrun2
  · rw [hb] at hrun2
    have hfin : loopWith cfg (nestedRun cfg fuel) res1.ctx res1.st
        res1.callIdx [Chunk.finishEv r u] = Except.ok
        { ctx := res1.ctx
          st := res1.st
          out := [Chunk.finishEv r res1.ctx.accumulatedUsage]
          callIdx := res1.callIdx } := rfl
    simp only [continueWith, hfin, Except.map, Except.ok.injEq] at hrun2
    obtain ⟨h1, h2, h3, h4⟩ := loopWith_acc cfg (nestedRun cfg fuel) Hexec
      (nestedRun_acc cfg Hexec Hprov fuel) body
      { ctx with accumulatedUsage := some pluginZeroUsage } initTState 0
      pluginZeroUsage res1 rfl rfl hb
    refine ⟨res1.out, ?_, h4 hbody, ?_⟩
    · rw [← hrun2]
      show res1.out ++ [Chunk.finishEv r res1.ctx.accumulatedUsage] = _
      rw [h1]
    · rw [← hrun2]
      exact h1

def c3cfgS : StreamCfg :=
  { parse := fun _ => []
    execToolsEmits := fun _ => []
    provider := fun _ => [Chunk.finishEv "s" none] }

def c3stepS : Usage :=
  { inputTokens := some 1, outputTokens := some 2, totalTokens := some 3 }

def c3accS : Usage :=
  { inputTokens := some 1, outputTokens := some 2, totalTokens := some 3
    reasoningTokens := some 0, cachedInputTokens := some 0 }

def c3ctxS : SCtx :=
  { accumulatedUsage := none, hasExecutedToolsInCurrentStep := false
    mcpTools := some ["t"] }

def c3resS : LoopRes :=
  { ctx := { accumulatedUsage := some c3accS
             hasExecutedToolsInCurrentStep := false
             mcpTools := some ["t"] }
    st := initTState
    out := [Chunk.finishStep "stop" (some c3stepS),
            Chunk.finishEv "fin" (some c3accS)]
    callIdx := 0 }

theorem prompt_tool_use_total_usage_witness :
    ∃ outBody,
      c3resS.out = outBody ++ [Chunk.finishEv "fin"
        (some (addAll pluginZeroUsage (fsUsages outBody)))] ∧
      noFinB outBody = true ∧
      c3resS.ctx.accumulatedUsage =
        some (addAll pluginZeroUsage (fsUsages outBody)) :=
  prompt_tool_use_total_usage c3cfgS 1 ["t"]
    [Chunk.finishStep "stop" (some c3stepS)] "fin" none c3ctxS c3resS
    (fun _ => ⟨rfl, rfl⟩) (fun _ => ⟨[], "s", none, rfl, rfl⟩)
    rfl rfl (by decide) (by decide)

end CherryCore